import Mathlib

/-!
Shallow embedding of the chess position engine in src/src/chess.rs
(the single source file of the repository), together with theorems
checking the specification's claims against it.

Modelling conventions:
* Rust i8 coordinates become Int (the program keeps them in 0..7 at every
  reachable index; no arithmetic in the modelled paths can reach the i8
  overflow boundary).
* The 8x8 grid [[Piece; 8]; 8] becomes a total function Fin 8 -> Fin 8 -> Piece.
* The two HashMap<Coordinate, Piece> indexes become Fin 8 -> Fin 8 -> Option Piece
  (every key the program ever inserts is in range).  HashMap iteration order is
  unspecified in Rust; we iterate in row-major order.  Every boolean the program
  derives from the maps (check, checkmate, early-return king lookup) is
  independent of that order except for which of several kings of one color
  get_king_coord returns first, a situation no claim depends on.
* A Rust panic becomes Option.none.  The mutually recursive
  get_moves / filter_check_moves / is_in_check trio does not terminate on some
  boards, so the trio is embedded fuel-indexed: none also stands for
  "no result within the given recursion depth"; a some result is
  fuel-monotone by construction (extra fuel is only consumed at nested
  is_in_check calls), hence a some value at any fuel is the Rust result.
-/

namespace Chyes

inductive Pieces where
  | King
  | Queen
  | Rook
  | Bishop
  | Knight
  | Pawn
  | Empty
deriving DecidableEq, Repr

inductive Color where
  | White
  | Black
deriving DecidableEq, Repr

structure Piece where
  breed : Pieces
  color : Color
deriving DecidableEq, Repr

structure Coordinate where
  row : Int
  col : Int
deriving DecidableEq, Repr

/-- The sentinel occupant used everywhere the source writes
Piece { breed: Empty, color: White }. -/
def emptyPiece : Piece := ⟨Pieces.Empty, Color.White⟩

abbrev Grid := Fin 8 → Fin 8 → Piece

abbrev PieceMap := Fin 8 → Fin 8 → Option Piece

/-- Conversion of an in-range Int index to Fin 8 (the source casts i8 to usize
after its own range guards; the mod never fires on a guarded index). -/
def idx (i : Int) : Fin 8 := ⟨i.toNat % 8, Nat.mod_lt _ (by norm_num)⟩

def inRangeB (r c : Int) : Bool :=
  decide (0 ≤ r) && decide (r < 8) && decide (0 ≤ c) && decide (c < 8)

structure Board where
  board : Grid
  turn : Color
  castling_black_king_side : Bool
  castling_black_queen_side : Bool
  castling_white_king_side : Bool
  castling_white_queen_side : Bool
  white_pieces : PieceMap
  black_pieces : PieceMap
  last_2_moves_pawn : Option Coordinate
  halfmove_clock : Int
  fullmove_number : Int
deriving DecidableEq

/-- self.board[row as usize][col as usize] at a source site that has already
guarded 0 <= row,col < 8 (unguarded sites are modelled with an explicit
range test returning none instead). -/
def Board.cell (b : Board) (r c : Int) : Piece := b.board (idx r) (idx c)

def Board.cellAt (b : Board) (co : Coordinate) : Piece := b.cell co.row co.col

def setCellG (g : Grid) (r c : Int) (p : Piece) : Grid :=
  fun i j => if i = idx r ∧ j = idx c then p else g i j

def mapInsert (m : PieceMap) (co : Coordinate) (p : Piece) : PieceMap :=
  fun i j => if i = idx co.row ∧ j = idx co.col then some p else m i j

def mapRemove (m : PieceMap) (co : Coordinate) : PieceMap :=
  fun i j => if i = idx co.row ∧ j = idx co.col then none else m i j

def mapAt (m : PieceMap) (co : Coordinate) : Option Piece := m (idx co.row) (idx co.col)

/-- The entries of an index map, in row-major order (the embedding's
determinization of HashMap iteration). -/
def mapEntries (m : PieceMap) : List (Coordinate × Piece) :=
  (List.finRange 8).foldr
    (fun i acc =>
      ((List.finRange 8).filterMap
        (fun j => (m i j).map (fun p => (⟨(i : Int), (j : Int)⟩, p)))) ++ acc)
    []

def colorMap (b : Board) (c : Color) : PieceMap :=
  match c with
  | Color.White => b.white_pieces
  | Color.Black => b.black_pieces

def otherColor : Color → Color
  | Color.White => Color.Black
  | Color.Black => Color.White

/-- Board::new -/
def Board.new : Board :=
  { board := fun _ _ => emptyPiece
    turn := Color.White
    castling_black_king_side := true
    castling_black_queen_side := true
    castling_white_king_side := true
    castling_white_queen_side := true
    white_pieces := fun _ _ => none
    black_pieces := fun _ _ => none
    last_2_moves_pawn := none
    halfmove_clock := 0
    fullmove_number := 1 }

/-- Board::clear (note: castling flags become false, unlike new). -/
def Board.clear (_b : Board) : Board :=
  { board := fun _ _ => emptyPiece
    turn := Color.White
    castling_black_king_side := false
    castling_black_queen_side := false
    castling_white_king_side := false
    castling_white_queen_side := false
    white_pieces := fun _ _ => none
    black_pieces := fun _ _ => none
    last_2_moves_pawn := none
    halfmove_clock := 0
    fullmove_number := 1 }

/-- Board::place_piece; none models the out-of-range panic.  (The Rust
parameters are usize; callers convert from i8, so a negative argument would
arrive as a huge usize and also hit the > 7 panic, which the Int-level
guard reproduces.) -/
def Board.place_piece (b : Board) (piece : Piece) (row col : Int) : Option Board :=
  if row < 0 ∨ 7 < row ∨ col < 0 ∨ 7 < col then none
  else some
    { b with
      board := setCellG b.board row col piece
      white_pieces :=
        if piece.color = Color.White then mapInsert b.white_pieces ⟨row, col⟩ piece
        else b.white_pieces
      black_pieces :=
        if piece.color ≠ Color.White then mapInsert b.black_pieces ⟨row, col⟩ piece
        else b.black_pieces }

/-- The match on FEN characters in load_fen; every unrecognized character
falls to the catch-all Empty/White piece. -/
def charPiece (c : Char) : Piece :=
  if c = 'K' then ⟨Pieces.King, Color.White⟩
  else if c = 'Q' then ⟨Pieces.Queen, Color.White⟩
  else if c = 'R' then ⟨Pieces.Rook, Color.White⟩
  else if c = 'B' then ⟨Pieces.Bishop, Color.White⟩
  else if c = 'N' then ⟨Pieces.Knight, Color.White⟩
  else if c = 'P' then ⟨Pieces.Pawn, Color.White⟩
  else if c = 'k' then ⟨Pieces.King, Color.Black⟩
  else if c = 'q' then ⟨Pieces.Queen, Color.Black⟩
  else if c = 'r' then ⟨Pieces.Rook, Color.Black⟩
  else if c = 'b' then ⟨Pieces.Bishop, Color.Black⟩
  else if c = 'n' then ⟨Pieces.Knight, Color.Black⟩
  else if c = 'p' then ⟨Pieces.Pawn, Color.Black⟩
  else emptyPiece

/-- The character scan of the board field in load_fen ('/' advances the rank,
a decimal digit skips files, anything else places a piece and advances one
file); none models the place_piece panic propagating. -/
def scanFen : List Char → Int → Int → Board → Option Board
  | [], _, _, b => some b
  | ch :: rest, row, col, b =>
    if ch = '/' then scanFen rest (row + 1) 0 b
    else if ch.isDigit then scanFen rest row (col + ((ch.toNat - 48 : Nat) : Int)) b
    else
      match b.place_piece (charPiece ch) row col with
      | none => none
      | some b1 => scanFen rest row (col + 1) b1

/-- str::split(' ') on a character list: split at every space, keeping empty
pieces (leading, trailing and between consecutive spaces). -/
def splitSp : List Char → List (List Char)
  | [] => [[]]
  | c :: rest =>
    if c = ' ' then [] :: splitSp rest
    else
      match splitSp rest with
      | [] => [[c]]
      | h :: t => (c :: h) :: t

/-- Board::load_fen; none models the three panics: a missing field unwrap,
an invalid side-to-move token, and an out-of-range placement. -/
def Board.load_fen (b : Board) (fen : String) : Option Board :=
  match splitSp fen.data with
  | fen_board :: fen_turn :: _fen_castling :: _fen_en_passant :: _fen_half_move ::
      _fen_full_move :: _ =>
    let b1 := b.clear
    if fen_turn = ['w'] then scanFen fen_board 0 0 { b1 with turn := Color.White }
    else if fen_turn = ['b'] then scanFen fen_board 0 0 { b1 with turn := Color.Black }
    else none
  | _ => none

/-- The FEN letter of a non-Empty piece in get_fen (the Empty arm of the Rust
match is unreachable because Empty cells take the run-length branch). -/
def pieceChar (p : Piece) : Char :=
  match p.breed, p.color with
  | Pieces.King, Color.White => 'K'
  | Pieces.Queen, Color.White => 'Q'
  | Pieces.Rook, Color.White => 'R'
  | Pieces.Bishop, Color.White => 'B'
  | Pieces.Knight, Color.White => 'N'
  | Pieces.Pawn, Color.White => 'P'
  | Pieces.King, Color.Black => 'k'
  | Pieces.Queen, Color.Black => 'q'
  | Pieces.Rook, Color.Black => 'r'
  | Pieces.Bishop, Color.Black => 'b'
  | Pieces.Knight, Color.Black => 'n'
  | Pieces.Pawn, Color.Black => 'p'
  | Pieces.Empty, _ => 'X'

/-- One rank of get_fen's board field: run-length encode Empty cells, flush
the pending count before a piece letter and at the end of the rank. -/
def encodeRankAux : List Piece → Nat → List Char
  | [], k => if 0 < k then (toString k).data else []
  | p :: rest, k =>
    if p.breed = Pieces.Empty then encodeRankAux rest (k + 1)
    else (if 0 < k then (toString k).data else []) ++ pieceChar p :: encodeRankAux rest 0

def rankOf (g : Grid) (i : Fin 8) : List Piece :=
  (List.finRange 8).map (fun j => g i j)

def encRank (g : Grid) (i : Fin 8) : List Char := encodeRankAux (rankOf g i) 0

/-- The board field of get_fen: the eight ranks with '/' between them
(the source loop pushes '/' after every rank but the last). -/
def boardFieldChars (g : Grid) : List Char :=
  encRank g 0 ++ ('/' :: (encRank g 1 ++ ('/' :: (encRank g 2 ++ ('/' :: (encRank g 3 ++
    ('/' :: (encRank g 4 ++ ('/' :: (encRank g 5 ++ ('/' :: (encRank g 6 ++
      ('/' :: encRank g 7)))))))))))))

/-- Coordinate::to_string: file letter then 8 - row. -/
def Coordinate.fenChars (c : Coordinate) : List Char :=
  (['a', 'b', 'c', 'd', 'e', 'f', 'g', 'h'].getD c.col.toNat 'a') :: (toString (8 - c.row)).data

def castlingChars (b : Board) : List Char :=
  (if b.castling_white_king_side then ['K'] else []) ++
    (if b.castling_white_queen_side then ['Q'] else []) ++
    (if b.castling_black_king_side then ['k'] else []) ++
    (if b.castling_black_queen_side then ['q'] else [])

def getFenChars (b : Board) : List Char :=
  boardFieldChars b.board ++
    (' ' :: ((if b.turn = Color.White then ['w'] else ['b']) ++
      (' ' :: (castlingChars b ++
        (' ' :: ((match b.last_2_moves_pawn with
                  | none => ['-']
                  | some co => co.fenChars) ++
          (' ' :: ((toString b.halfmove_clock).data ++
            (' ' :: (toString b.fullmove_number).data)))))))))

/-- Board::get_fen -/
def Board.get_fen (b : Board) : String := String.mk (getFenChars b)

/-- Board::default -/
def Board.default : Option Board :=
  Board.new.load_fen "rnbqkbnr/pppppppp/8/8/8/8/PPPPPPPP/RNBQKBNR w KQkq - 0 1"

/-- Board::apply_move; none models the panic of an out-of-range array index.
Returns the updated board paired with the captured piece (the Rust return
value). -/
def Board.apply_move (b : Board) (starting ending : Coordinate) :
    Option (Board × Option Piece) :=
  if inRangeB starting.row starting.col && inRangeB ending.row ending.col then
    let piece : Piece := b.cellAt starting
    let captured_piece : Piece := b.cellAt ending
    let g1 := setCellG b.board starting.row starting.col emptyPiece
    let g2 := setCellG g1 ending.row ending.col piece
    let ep :=
      if piece.breed = Pieces.Pawn ∧ (ending.row - starting.row).natAbs = 2 then
        some ending
      else b.last_2_moves_pawn
    let wp :=
      if piece.color = Color.White then
        mapRemove (mapInsert b.white_pieces ending piece) starting
      else
        if captured_piece.breed ≠ Pieces.Empty then mapRemove b.white_pieces ending
        else b.white_pieces
    let bp :=
      if piece.color = Color.White then
        if captured_piece.breed ≠ Pieces.Empty then mapRemove b.black_pieces ending
        else b.black_pieces
      else
        mapRemove (mapInsert b.black_pieces ending piece) starting
    some
      ({ b with
          board := g2
          last_2_moves_pawn := ep
          white_pieces := wp
          black_pieces := bp
          turn := otherColor b.turn },
        if captured_piece.breed ≠ Pieces.Empty then some captured_piece else none)
  else none

/-- Board::get_king_coord: first King entry of the color's index map. -/
def Board.get_king_coord (b : Board) (color : Color) : Option Coordinate :=
  ((mapEntries (colorMap b color)).find? (fun e => e.2.breed = Pieces.King)).map
    (fun e => e.1)

/-- One probe of one sliding direction at one delta: the pushed square (if any)
and whether the direction stays alive, exactly as in diagonal_moves and
linear_moves. -/
def rayProbe (b : Board) (color : Color) (nr nc : Int) : List Coordinate × Bool :=
  if 0 ≤ nr ∧ 0 ≤ nc ∧ nr < 8 ∧ nc < 8 then
    let piece := b.cell nr nc
    if piece.breed ≠ Pieces.Empty then
      if piece.color ≠ color then ([⟨nr, nc⟩], false) else ([], false)
    else ([⟨nr, nc⟩], true)
  else ([], false)

/-- The shared delta loop of diagonal_moves / linear_moves: for each delta the
four directions are probed in source order, each with its own alive flag. -/
def rayGo (b : Board) (color : Color) (row col : Int) (d1 d2 d3 d4 : Int × Int) :
    Nat → Int → Bool → Bool → Bool → Bool → List Coordinate
  | 0, _, _, _, _, _ => []
  | fuel + 1, delta, a1, a2, a3, a4 =>
    let p1 := if a1 then rayProbe b color (row + d1.1 * delta) (col + d1.2 * delta)
      else ([], false)
    let p2 := if a2 then rayProbe b color (row + d2.1 * delta) (col + d2.2 * delta)
      else ([], false)
    let p3 := if a3 then rayProbe b color (row + d3.1 * delta) (col + d3.2 * delta)
      else ([], false)
    let p4 := if a4 then rayProbe b color (row + d4.1 * delta) (col + d4.2 * delta)
      else ([], false)
    p1.1 ++ p2.1 ++ p3.1 ++ p4.1 ++
      rayGo b color row col d1 d2 d3 d4 fuel (delta + 1) p1.2 p2.2 p3.2 p4.2

/-- Board::diagonal_moves (directions in source order: left up, left down,
right up, right down; delta runs 1..7). -/
def Board.diagonal_moves (b : Board) (row col : Int) (color : Color) : List Coordinate :=
  rayGo b color row col (1, -1) (-1, -1) (1, 1) (-1, 1) 7 1 true true true true

/-- Board::linear_moves (directions in source order: up, down, left, right). -/
def Board.linear_moves (b : Board) (row col : Int) (color : Color) : List Coordinate :=
  rayGo b color row col (1, 0) (-1, 0) (0, -1) (0, 1) 7 1 true true true true

/-- The pawn double-step block of get_moves. -/
def pawnTwoStep (b : Board) (row col : Int) (piece : Piece) : List Coordinate :=
  if piece.color = Color.White ∧ row = 6 then
    if (b.cell (row - 1) col).breed = Pieces.Empty then
      ⟨row - 1, col⟩ ::
        (if (b.cell (row - 2) col).breed = Pieces.Empty then [⟨row - 2, col⟩] else [])
    else []
  else if piece.color = Color.Black ∧ row = 1 then
    if (b.cell (row + 1) col).breed = Pieces.Empty then
      ⟨row + 1, col⟩ ::
        (if (b.cell (row + 2) col).breed = Pieces.Empty then [⟨row + 2, col⟩] else [])
    else []
  else []

/-- The pawn single-step block of get_moves. -/
def pawnOneStep (b : Board) (row col : Int) (piece : Piece) : List Coordinate :=
  match piece.color with
  | Color.White =>
    if 0 < row ∧ (b.cell (row - 1) col).breed = Pieces.Empty then [⟨row - 1, col⟩] else []
  | Color.Black =>
    if row < 7 ∧ (b.cell (row + 1) col).breed = Pieces.Empty then [⟨row + 1, col⟩] else []

/-- The pawn diagonal-capture block of get_moves. -/
def pawnCaptures (b : Board) (row col : Int) (piece : Piece) : List Coordinate :=
  match piece.color with
  | Color.White =>
    (if 1 ≤ row ∧ 1 ≤ col ∧
        ((b.cell (row - 1) (col - 1)).breed ≠ Pieces.Empty ∧
          (b.cell (row - 1) (col - 1)).color ≠ piece.color) then
      [⟨row - 1, col - 1⟩] else []) ++
    (if 1 ≤ row ∧ col < 7 ∧
        ((b.cell (row - 1) (col + 1)).breed ≠ Pieces.Empty ∧
          (b.cell (row - 1) (col + 1)).color ≠ piece.color) then
      [⟨row - 1, col + 1⟩] else [])
  | Color.Black =>
    (if row < 7 ∧ 1 ≤ col ∧
        ((b.cell (row + 1) (col - 1)).breed ≠ Pieces.Empty ∧
          (b.cell (row + 1) (col - 1)).color ≠ piece.color) then
      [⟨row + 1, col - 1⟩] else []) ++
    (if row < 7 ∧ col < 7 ∧
        ((b.cell (row + 1) (col + 1)).breed ≠ Pieces.Empty ∧
          (b.cell (row + 1) (col + 1)).color ≠ piece.color) then
      [⟨row + 1, col + 1⟩] else [])

/-- The en-passant block of get_moves: the marker must sit horizontally
adjacent on the same rank AND the adjacent square must hold a pawn of the
opposite color. -/
def pawnEnPassant (b : Board) (row col : Int) (piece : Piece) : List Coordinate :=
  match b.last_2_moves_pawn with
  | none => []
  | some marker =>
    let new_row : Int := if piece.color = Color.White then row - 1 else row + 1
    (if 0 ≤ col - 1 ∧ col - 1 < 8 then
      if marker = ⟨row, col - 1⟩ then
        if (b.cell row (col - 1)).breed = Pieces.Pawn ∧
            (b.cell row (col - 1)).color ≠ piece.color then
          [⟨new_row, col - 1⟩]
        else []
      else []
    else []) ++
    (if 0 ≤ col + 1 ∧ col + 1 < 8 then
      if marker = ⟨row, col + 1⟩ then
        if (b.cell row (col + 1)).breed = Pieces.Pawn ∧
            (b.cell row (col + 1)).color ≠ piece.color then
          [⟨new_row, col + 1⟩]
        else []
      else []
    else [])

def pawnMoves (b : Board) (row col : Int) (piece : Piece) : List Coordinate :=
  pawnTwoStep b row col piece ++ pawnOneStep b row col piece ++
    pawnCaptures b row col piece ++ pawnEnPassant b row col piece

/-- The per-kind candidate push block of get_moves (before the shared
filters). -/
def rawCandidates (b : Board) (row col : Int) : List Coordinate :=
  let piece := b.cell row col
  match piece.breed with
  | Pieces.King =>
    [⟨row - 1, col + 1⟩, ⟨row, col + 1⟩, ⟨row + 1, col + 1⟩, ⟨row - 1, col⟩,
      ⟨row + 1, col⟩, ⟨row - 1, col - 1⟩, ⟨row, col - 1⟩, ⟨row + 1, col - 1⟩]
  | Pieces.Queen => b.diagonal_moves row col piece.color ++ b.linear_moves row col piece.color
  | Pieces.Rook => b.linear_moves row col piece.color
  | Pieces.Bishop => b.diagonal_moves row col piece.color
  | Pieces.Knight =>
    [⟨row - 2, col - 1⟩, ⟨row - 2, col + 1⟩, ⟨row - 1, col - 2⟩, ⟨row - 1, col + 2⟩,
      ⟨row + 1, col - 2⟩, ⟨row + 1, col + 2⟩, ⟨row + 2, col - 1⟩, ⟨row + 2, col + 1⟩]
  | Pieces.Pawn => pawnMoves b row col piece
  | Pieces.Empty => []

/-- The three shared filters of get_moves: drop out-of-board squares, drop
friendly-occupied squares, drop duplicates (keeping first occurrences). -/
def filteredCandidates (b : Board) (row col : Int) : List Coordinate :=
  let piece := b.cell row col
  let r1 := (rawCandidates b row col).filter
    (fun co => inRangeB co.row co.col)
  let r2 := r1.filter
    (fun co =>
      let on_way_piece := b.cellAt co
      on_way_piece.breed = Pieces.Empty ∨ on_way_piece.color ≠ piece.color)
  r2.foldl (fun acc co => if acc.contains co then acc else acc ++ [co]) []

/-- The clone made by filter_check_moves: a fresh board loaded from the FEN of
the current one (so castling rights, the en-passant marker and the clocks are
reset, and the index maps are rebuilt from the grid). -/
def cloneViaFen (b : Board) : Option Board := Board.new.load_fen b.get_fen

/-- The unconditional reversal inside filter_check_moves: move the piece back
and re-place a captured piece. -/
def undoStep (clone1 : Board) (piece_coord move_coord : Coordinate)
    (captured : Option Piece) : Option Board :=
  match clone1.apply_move move_coord piece_coord with
  | none => none
  | some (clone2, _) =>
    match captured with
    | none => some clone2
    | some cap => clone2.place_piece cap move_coord.row move_coord.col

/-- The candidate loop of filter_check_moves, parameterized by the check
oracle (is_in_check at one less fuel); a retained candidate is one whose
simulated position is not in check for the mover. -/
def filterLoop (oracle : Board → Color → Option Bool) (pieceColor : Color)
    (piece_coord : Coordinate) : Board → List Coordinate → Option (List Coordinate)
  | _, [] => some []
  | clone, move_coord :: rest =>
    match clone.apply_move piece_coord move_coord with
    | none => none
    | some (clone1, captured) =>
      match oracle clone1 pieceColor with
      | none => none
      | some inChk =>
        match undoStep clone1 piece_coord move_coord captured with
        | none => none
        | some clone3 =>
          match filterLoop oracle pieceColor piece_coord clone3 rest with
          | none => none
          | some res => some (if inChk then res else move_coord :: res)

/-- Board::filter_check_moves, parameterized by the check oracle. -/
def filter_check_movesO (oracle : Board → Color → Option Bool) (b : Board)
    (piece_coord : Coordinate) (moves : List Coordinate) : Option (List Coordinate) :=
  match cloneViaFen b with
  | none => none
  | some clone =>
    let piece := b.cellAt piece_coord
    filterLoop oracle piece.color piece_coord clone moves

/-- Board::get_moves, parameterized by the check oracle used inside the final
filter_check_moves step; none at the range test models the panic of the
initial unguarded board index. -/
def get_movesO (oracle : Board → Color → Option Bool) (b : Board) (row col : Int) :
    Option (List Coordinate) :=
  if inRangeB row col then
    filter_check_movesO oracle b ⟨row, col⟩ (filteredCandidates b row col)
  else none

/-- The opponent-piece loop of is_in_check. -/
def checkLoop (gm : Int → Int → Option (List Coordinate)) (king_coord : Coordinate) :
    List (Coordinate × Piece) → Option Bool
  | [] => some false
  | (co, _) :: rest =>
    match gm co.row co.col with
    | none => none
    | some moves =>
      if king_coord ∈ moves then some true else checkLoop gm king_coord rest

/-- The body of is_in_check, parameterized by the oracle passed to the nested
get_moves calls. -/
def is_in_checkBody (oracle : Board → Color → Option Bool) (b : Board)
    (color : Color) : Option Bool :=
  match b.get_king_coord color with
  | none => some false
  | some king_coord =>
    checkLoop (get_movesO oracle b) king_coord
      (mapEntries (colorMap b (otherColor color)))

/-- Board::is_in_check, fuel-indexed: each nested is_in_check call (through
get_moves -> filter_check_moves) consumes one unit of fuel; none means no
result within that depth. -/
def is_in_check_fuel : Nat → Board → Color → Option Bool
  | 0, _, _ => none
  | n + 1, b, color => is_in_checkBody (is_in_check_fuel n) b color

/-- Board::get_moves at a given recursion depth. -/
def get_moves_fuel (n : Nat) (b : Board) (row col : Int) : Option (List Coordinate) :=
  get_movesO (is_in_check_fuel n) b row col

/-- The friendly-piece loop of is_in_checkmate. -/
def mateLoop (gm : Int → Int → Option (List Coordinate)) :
    List (Coordinate × Piece) → Option Bool
  | [] => some true
  | (co, _) :: rest =>
    match gm co.row co.col with
    | none => none
    | some moves => if moves.length ≠ 0 then some false else mateLoop gm rest

/-- Board::is_in_checkmate at a given recursion depth. -/
def is_in_checkmate_fuel (n : Nat) (b : Board) (color : Color) : Option Bool :=
  match b.get_king_coord color with
  | none => some false
  | some _ =>
    mateLoop (get_movesO (is_in_check_fuel n) b) (mapEntries (colorMap b color))

/-! ### Spec-side predicates (used to state claims; compared against the
source-derived functions above) -/

/-- Spec-side: the notation text has fewer than six space-separated fields
(load_fen unwraps six). -/
def fewerThanSixFields (fen : String) : Bool :=
  (splitSp fen.data).length < 6

/-- Spec-side: the side-to-move token is present but is neither of the two
recognized letters. -/
def invalidTurnToken (fen : String) : Bool :=
  match splitSp fen.data with
  | _ :: ft :: _ => !(ft = ['w'] ∨ ft = ['b'])
  | _ => false

/-- Spec-side: the (row, col) scan state of the board field after a prefix of
characters, starting from a given state. -/
def scanPos : List Char → Int × Int → Int × Int
  | [], st => st
  | ch :: rest, (r, c) =>
    if ch = '/' then scanPos rest (r + 1, 0)
    else if ch.isDigit then scanPos rest (r, c + ((ch.toNat - 48 : Nat) : Int))
    else scanPos rest (r, c + 1)

/-- Spec-side: scanning the board field from the given state eventually places
a piece at a row or column outside 0..7. -/
def scanHitsOOB : List Char → Int → Int → Bool
  | [], _, _ => false
  | ch :: rest, r, c =>
    if ch = '/' then scanHitsOOB rest (r + 1) 0
    else if ch.isDigit then scanHitsOOB rest r (c + ((ch.toNat - 48 : Nat) : Int))
    else if r < 0 ∨ 7 < r ∨ c < 0 ∨ 7 < c then true
    else scanHitsOOB rest r (c + 1)

/-- Spec-side: the board field of the notation text makes the scan place a
piece out of range. -/
def boardScanOutOfRange (fen : String) : Bool :=
  match splitSp fen.data with
  | fb :: _ => scanHitsOOB fb 0 0
  | [] => false

/-- Claim-side: the characters the spec calls recognized in a board field
(digits 1-8, '/', and the twelve piece letters). -/
def recognizedBoardChar (c : Char) : Bool :=
  c = '/' || decide ('1' ≤ c ∧ c ≤ '8') ||
    c ∈ ['K', 'Q', 'R', 'B', 'N', 'P', 'k', 'q', 'r', 'b', 'n', 'p']

def recognizedBoardField (s : List Char) : Bool := s.all recognizedBoardChar

/-- A character of the board field that falls to load_fen's catch-all arm:
not '/', not a decimal digit, not one of the twelve piece letters. -/
def unrecognizedBoardChar (c : Char) : Bool :=
  !(c = '/' || c.isDigit ||
    c ∈ ['K', 'Q', 'R', 'B', 'N', 'P', 'k', 'q', 'r', 'b', 'n', 'p'])

/-- The documented grid/index correspondence: each map holds exactly the
non-Empty cells of its color. -/
def mapsMatchGrid (b : Board) : Prop :=
  ∀ i j : Fin 8,
    b.white_pieces i j =
      (if (b.board i j).breed ≠ Pieces.Empty ∧ (b.board i j).color = Color.White
        then some (b.board i j) else none) ∧
    b.black_pieces i j =
      (if (b.board i j).breed ≠ Pieces.Empty ∧ (b.board i j).color = Color.Black
        then some (b.board i j) else none)

/-- A grid whose Empty cells all carry the White sentinel color (every grid
load_fen produces is of this shape). -/
def TidyGrid (g : Grid) : Prop :=
  ∀ i j : Fin 8, (g i j).breed = Pieces.Empty → g i j = emptyPiece

/-- Place the non-Empty pieces of one rank list onto a board left to right
from a starting column (the effect of scanning that rank's run-length
encoding). -/
def placeRankFrom (r : Int) : Int → List Piece → Board → Board
  | _, [], b => b
  | c, p :: rest, b =>
    if p.breed = Pieces.Empty then placeRankFrom r (c + 1) rest b
    else placeRankFrom r (c + 1) rest ((b.place_piece p r c).getD b)

/-- Place all eight ranks of a grid onto a board (the effect of scanning the
grid's full board-field encoding). -/
def placeAll (g : Grid) (b : Board) : Board :=
  placeRankFrom 7 0 (rankOf g 7) (placeRankFrom 6 0 (rankOf g 6)
    (placeRankFrom 5 0 (rankOf g 5) (placeRankFrom 4 0 (rankOf g 4)
      (placeRankFrom 3 0 (rankOf g 3) (placeRankFrom 2 0 (rankOf g 2)
        (placeRankFrom 1 0 (rankOf g 1) (placeRankFrom 0 0 (rankOf g 0) b)))))))

/-! ### Concrete boards used by individual claims -/

/-- Lone white rook at row 3, col 3. -/
def rookBoard : Board := (Board.new.load_fen "8/8/8/3R4/8/8/8/8 w - - 0 1").getD Board.new

/-- Two-king board: black king at (0,7), white king at (2,7), white to move. -/
def cycleB0 : Board := (Board.new.load_fen "7k/8/7K/8/8/8/8/8 w - - 0 1").getD Board.new

/-- cycleB0 after the black king's first candidate (0,7) -> (1,7). -/
def cycleB1 : Board := ((cycleB0.apply_move ⟨0, 7⟩ ⟨1, 7⟩).map Prod.fst).getD Board.new

/-- cycleB1 after the white king's first candidate (2,7) -> (1,7): the black
king is captured. -/
def cycleB2 : Board := ((cycleB1.apply_move ⟨2, 7⟩ ⟨1, 7⟩).map Prod.fst).getD Board.new

/-- cycleB1 after the white king's second candidate (2,7) -> (3,7). -/
def cycleB3 : Board := ((cycleB1.apply_move ⟨2, 7⟩ ⟨3, 7⟩).map Prod.fst).getD Board.new

/-- cycleB3 after the black king's first candidate (1,7) -> (0,7). -/
def cycleB4 : Board := ((cycleB3.apply_move ⟨1, 7⟩ ⟨0, 7⟩).map Prod.fst).getD Board.new

/-- A board with a single white pawn at (0,0) (for the from = to behavior of
apply_move). -/
def pawnCornerBoard : Board :=
  (Board.new.place_piece ⟨Pieces.Pawn, Color.White⟩ 0 0).getD Board.new

/-- White pawn at (3,3), black KNIGHT at (3,4), en-passant marker at (3,4):
the marker is horizontally adjacent to the pawn but the occupant is not an
enemy pawn. -/
def epKnightBoard : Board :=
  { (Board.new.load_fen "8/8/8/3Pn3/8/8/8/8 w - - 0 1").getD Board.new with
    last_2_moves_pawn := some ⟨3, 4⟩ }

/-- White pawn at (3,3), black pawn at (3,4), en-passant marker at (3,4). -/
def epPawnBoard : Board :=
  { (Board.new.load_fen "8/8/8/3Pp3/8/8/8/8 w - - 0 1").getD Board.new with
    last_2_moves_pawn := some ⟨3, 4⟩ }

/-- Lone white king at (0,0). -/
def loneKingBoard : Board := (Board.new.load_fen "K7/8/8/8/8/8/8/8 w - - 0 1").getD Board.new

/-- The standard starting position (Board::default cannot actually fail). -/
def defaultBoard : Board := Board.default.getD Board.new

/-- The board loaded from a text whose board field starts with the
unrecognized character 'x'. -/
def c10WitnessBoard : Board :=
  (Board.new.load_fen "x7/8/8/8/8/8/8/8 w - - 0 1").getD Board.new

/-- A lone black king, black to move: a successfully loading input for the
round-trip witness. -/
def c7Board : Board :=
  (Board.new.load_fen "k7/8/8/8/8/8/8/8 b - - 0 1").getD Board.new

/-! ### Helper lemmas -/

theorem inRangeB_eq_true {r c : Int} :
    inRangeB r c = true ↔ 0 ≤ r ∧ r < 8 ∧ 0 ≤ c ∧ c < 8 := by
  simp [inRangeB, Bool.and_eq_true, decide_eq_true_eq, and_assoc]

theorem idx_inj {a b : Int} (ha0 : 0 ≤ a) (ha8 : a < 8) (hb0 : 0 ≤ b) (hb8 : b < 8)
    (h : idx a = idx b) : a = b := by
  have h' : a.toNat % 8 = b.toNat % 8 := congrArg Fin.val h
  omega

theorem setCellG_same (g : Grid) (r c : Int) (p : Piece) :
    setCellG g r c p (idx r) (idx c) = p := by
  simp [setCellG]

theorem setCellG_ne (g : Grid) (r c : Int) (p : Piece) {i j : Fin 8}
    (h : ¬(i = idx r ∧ j = idx c)) : setCellG g r c p i j = g i j := by
  simp only [setCellG, if_neg h]

theorem mapInsert_same (m : PieceMap) (co : Coordinate) (p : Piece) :
    mapInsert m co p (idx co.row) (idx co.col) = some p := by
  simp [mapInsert]

theorem mapInsert_ne (m : PieceMap) (co : Coordinate) (p : Piece) {i j : Fin 8}
    (h : ¬(i = idx co.row ∧ j = idx co.col)) : mapInsert m co p i j = m i j := by
  simp only [mapInsert, if_neg h]

theorem mapRemove_same (m : PieceMap) (co : Coordinate) :
    mapRemove m co (idx co.row) (idx co.col) = none := by
  simp [mapRemove]

theorem mapRemove_ne (m : PieceMap) (co : Coordinate) {i j : Fin 8}
    (h : ¬(i = idx co.row ∧ j = idx co.col)) : mapRemove m co i j = m i j := by
  simp only [mapRemove, if_neg h]

/-- Distinct in-range coordinates stay distinct after idx conversion. -/
theorem idx_pair_ne {f t : Coordinate} (hf : inRangeB f.row f.col = true)
    (ht : inRangeB t.row t.col = true) (hne : f ≠ t) :
    ¬(idx f.row = idx t.row ∧ idx f.col = idx t.col) := by
  rw [inRangeB_eq_true] at hf ht
  rintro ⟨h1, h2⟩
  exact hne (by
    cases f; cases t
    simp only [Coordinate.mk.injEq]
    exact ⟨idx_inj hf.1 hf.2.1 ht.1 ht.2.1 h1, idx_inj hf.2.2.1 hf.2.2.2 ht.2.2.1 ht.2.2.2 h2⟩)

/-! ### C1: serialization of the default board -/

/-- C1 counterexample: serializing the default board does NOT reproduce the
canonical starting text with full castling rights, because load_fen's clear()
resets all four castling flags to false and the castling input field is
discarded. -/
theorem c1_default_fen_counterexample :
    ¬ Board.default.map Board.get_fen =
      some "rnbqkbnr/pppppppp/8/8/8/8/PPPPPPPP/RNBQKBNR w KQkq - 0 1" := by
  decide

/-- C1 (amended): serializing the default board yields the starting text with
an EMPTY castling field (two consecutive spaces), no en-passant marker,
halfmove 0 and fullmove 1; all four castling flags of the default board are
false. -/
theorem c1_default_fen :
    ∃ d, Board.default = some d ∧
      d.get_fen = "rnbqkbnr/pppppppp/8/8/8/8/PPPPPPPP/RNBQKBNR w  - 0 1" ∧
      d.castling_white_king_side = false ∧ d.castling_white_queen_side = false ∧
      d.castling_black_king_side = false ∧ d.castling_black_queen_side = false := by
  refine ⟨defaultBoard, by decide, by decide, by decide, by decide, by decide, by decide⟩

/-! ### C8: the lone rook's 14 destinations -/

/-- C8: on the board whose only piece is a rook at row 3, col 3, get_moves
(at recursion depth 1, which suffices: the simulated positions contain no
king of the mover's color, so the nested check test returns immediately)
returns exactly the 14 squares of the rook's rank and file. -/
theorem c8_lone_rook_moves :
    ∃ l, get_moves_fuel 1 rookBoard 3 3 = some l ∧ l.length = 14 ∧
      l.Perm
        [⟨3, 0⟩, ⟨3, 1⟩, ⟨3, 2⟩, ⟨3, 4⟩, ⟨3, 5⟩, ⟨3, 6⟩, ⟨3, 7⟩,
          ⟨0, 3⟩, ⟨1, 3⟩, ⟨2, 3⟩, ⟨4, 3⟩, ⟨5, 3⟩, ⟨6, 3⟩, ⟨7, 3⟩] := by
  refine ⟨[⟨4, 3⟩, ⟨2, 3⟩, ⟨3, 2⟩, ⟨3, 4⟩, ⟨5, 3⟩, ⟨1, 3⟩, ⟨3, 1⟩, ⟨3, 5⟩,
    ⟨6, 3⟩, ⟨0, 3⟩, ⟨3, 0⟩, ⟨3, 6⟩, ⟨7, 3⟩, ⟨3, 7⟩], by decide, by decide, by decide⟩

/-! ### C5: frame effects of apply_move -/

/-- C5: for every board and in-range move, apply_move toggles the turn, leaves
the four castling flags and both counters unchanged, sets the en-passant
marker to the destination exactly when the mover is a Pawn whose row changes
by two, and otherwise leaves the marker unchanged. -/
theorem c5_apply_move_frame (b : Board) (f t : Coordinate)
    (hf : inRangeB f.row f.col = true) (ht : inRangeB t.row t.col = true) :
    ∃ b' cap, b.apply_move f t = some (b', cap) ∧
      b'.turn = otherColor b.turn ∧
      b'.castling_white_king_side = b.castling_white_king_side ∧
      b'.castling_white_queen_side = b.castling_white_queen_side ∧
      b'.castling_black_king_side = b.castling_black_king_side ∧
      b'.castling_black_queen_side = b.castling_black_queen_side ∧
      b'.halfmove_clock = b.halfmove_clock ∧
      b'.fullmove_number = b.fullmove_number ∧
      b'.last_2_moves_pawn =
        (if (b.cellAt f).breed = Pieces.Pawn ∧ (t.row - f.row).natAbs = 2
          then some t else b.last_2_moves_pawn) := by
  simp only [Board.apply_move, hf, ht, Bool.and_self, if_true]
  exact ⟨_, _, rfl, rfl, rfl, rfl, rfl, rfl, rfl, rfl, rfl⟩

/-- C5 witness: the double pawn push (6,0) -> (4,0) on the starting board. -/
theorem c5_apply_move_frame_witness :
    ∃ b' cap, defaultBoard.apply_move ⟨6, 0⟩ ⟨4, 0⟩ = some (b', cap) ∧
      b'.turn = otherColor defaultBoard.turn ∧
      b'.castling_white_king_side = defaultBoard.castling_white_king_side ∧
      b'.castling_white_queen_side = defaultBoard.castling_white_queen_side ∧
      b'.castling_black_king_side = defaultBoard.castling_black_king_side ∧
      b'.castling_black_queen_side = defaultBoard.castling_black_queen_side ∧
      b'.halfmove_clock = defaultBoard.halfmove_clock ∧
      b'.fullmove_number = defaultBoard.fullmove_number ∧
      b'.last_2_moves_pawn =
        (if (defaultBoard.cellAt ⟨6, 0⟩).breed = Pieces.Pawn ∧
            ((4 : Int) - (6 : Int)).natAbs = 2
          then some ⟨4, 0⟩ else defaultBoard.last_2_moves_pawn) :=
  c5_apply_move_frame defaultBoard ⟨6, 0⟩ ⟨4, 0⟩ (by decide) (by decide)

/-! ### C9: en-passant candidate generation -/

/-- C9 counterexample: a board where the en-passant marker sits horizontally
adjacent to a pawn, yet the pawn's candidate generation does NOT include the
diagonal destination, because the occupant of the marker square is a knight,
not an enemy pawn (a condition the claim omits). -/
theorem c9_en_passant_counterexample :
    (epKnightBoard.cell 3 3).breed = Pieces.Pawn ∧
      (epKnightBoard.cell 3 3).color = Color.White ∧
      epKnightBoard.last_2_moves_pawn = some ⟨3, 4⟩ ∧
      ¬((⟨2, 4⟩ : Coordinate) ∈ rawCandidates epKnightBoard 3 3) := by
  decide

/-- C9 (amended): if additionally the marker square holds a PAWN of the
OPPOSITE color, the pawn's candidate generation includes the diagonal
destination one rank ahead of the mover on the marker's file. -/
theorem c9_en_passant (b : Board) (row col mcol : Int)
    (hp : (b.cell row col).breed = Pieces.Pawn)
    (hm : b.last_2_moves_pawn = some ⟨row, mcol⟩)
    (hadj : mcol = col - 1 ∨ mcol = col + 1)
    (h0 : 0 ≤ mcol) (h8 : mcol < 8)
    (hep : (b.cell row mcol).breed = Pieces.Pawn)
    (hcol : (b.cell row mcol).color ≠ (b.cell row col).color) :
    (⟨(if (b.cell row col).color = Color.White then row - 1 else row + 1), mcol⟩ :
        Coordinate) ∈ rawCandidates b row col := by
  simp only [rawCandidates]
  rw [hp]
  simp only [pawnMoves]
  refine List.mem_append_right _ ?_
  simp only [pawnEnPassant]
  rw [hm]
  rcases hadj with h | h
  · subst h
    refine List.mem_append_left _ ?_
    rw [if_pos ⟨h0, h8⟩, if_pos rfl, if_pos ⟨hep, hcol⟩]
    exact List.mem_singleton.mpr rfl
  · subst h
    refine List.mem_append_right _ ?_
    rw [if_pos ⟨h0, h8⟩, if_pos rfl, if_pos ⟨hep, hcol⟩]
    exact List.mem_singleton.mpr rfl

/-- C9 witness: white pawn at (3,3), black pawn at (3,4), marker (3,4): the
diagonal destination (2,4) is generated. -/
theorem c9_en_passant_witness :
    (⟨(if (epPawnBoard.cell 3 3).color = Color.White then (3 : Int) - 1 else 3 + 1),
        4⟩ : Coordinate) ∈ rawCandidates epPawnBoard 3 3 :=
  c9_en_passant epPawnBoard 3 3 4 (by decide) (by decide) (Or.inr (by decide))
    (by decide) (by decide) (by decide) (by decide)

/-! ### C4: the state updates of apply_move -/

theorem moveMap_posts (m : PieceMap) (f t : Coordinate) (p : Piece)
    (hf : inRangeB f.row f.col = true) (ht : inRangeB t.row t.col = true)
    (hne : f ≠ t) :
    mapAt (mapRemove (mapInsert m t p) f) t = some p ∧
      mapAt (mapRemove (mapInsert m t p) f) f = none ∧
      ∀ co : Coordinate, inRangeB co.row co.col = true → co ≠ f → co ≠ t →
        mapAt (mapRemove (mapInsert m t p) f) co = mapAt m co := by
  refine ⟨?_, ?_, ?_⟩
  · rw [mapAt, mapRemove_ne _ _ (idx_pair_ne ht hf (Ne.symm hne)), mapInsert_same]
  · rw [mapAt, mapRemove_same]
  · intro co hco h1 h2
    rw [mapAt, mapAt, mapRemove_ne _ _ (idx_pair_ne hco hf h1),
      mapInsert_ne _ _ _ (idx_pair_ne hco ht h2)]

theorem removeMap_posts (m : PieceMap) (t : Coordinate)
    (ht : inRangeB t.row t.col = true) :
    mapAt (mapRemove m t) t = none ∧
      ∀ co : Coordinate, inRangeB co.row co.col = true → co ≠ t →
        mapAt (mapRemove m t) co = mapAt m co := by
  refine ⟨by rw [mapAt, mapRemove_same], ?_⟩
  intro co hco h1
  rw [mapAt, mapAt, mapRemove_ne _ _ (idx_pair_ne hco ht h1)]

/-- C4 counterexample: at from = to on an occupied square the claimed
postconditions fail: apply_move leaves the mover on the square (not Empty)
and reports the mover itself as captured. -/
theorem c4_apply_move_counterexample :
    ¬ ∀ (b : Board) (f t : Coordinate),
      inRangeB f.row f.col = true → inRangeB t.row t.col = true →
      ∃ b' cap, b.apply_move f t = some (b', cap) ∧ b'.cellAt f = emptyPiece := by
  intro h
  obtain ⟨b', cap, happ, hcell⟩ :=
    h pawnCornerBoard ⟨0, 0⟩ ⟨0, 0⟩ (by decide) (by decide)
  have : b' = ((pawnCornerBoard.apply_move ⟨0, 0⟩ ⟨0, 0⟩).map Prod.fst).getD Board.new := by
    rw [happ]; rfl
  subst this
  revert hcell
  decide

/-- C4 (amended): for every board and every pair of DISTINCT in-range
coordinates, apply_move empties the source square, writes the mover to the
destination, inserts the mover at the destination and removes the source
entry in its own color's map, removes the destination entry from the opposite
color's map exactly when the previous occupant was non-Empty, leaves
everything else in the grid and both maps unchanged, and returns the previous
occupant exactly when it was non-Empty. -/
theorem c4_apply_move (b : Board) (f t : Coordinate)
    (hf : inRangeB f.row f.col = true) (ht : inRangeB t.row t.col = true)
    (hne : f ≠ t) :
    ∃ b', b.apply_move f t =
        some (b', if (b.cellAt t).breed ≠ Pieces.Empty then some (b.cellAt t) else none) ∧
      b'.cellAt f = emptyPiece ∧
      b'.cellAt t = b.cellAt f ∧
      (∀ co : Coordinate, inRangeB co.row co.col = true → co ≠ f → co ≠ t →
        b'.cellAt co = b.cellAt co) ∧
      mapAt (colorMap b' (b.cellAt f).color) t = some (b.cellAt f) ∧
      mapAt (colorMap b' (b.cellAt f).color) f = none ∧
      (∀ co : Coordinate, inRangeB co.row co.col = true → co ≠ f → co ≠ t →
        mapAt (colorMap b' (b.cellAt f).color) co =
          mapAt (colorMap b (b.cellAt f).color) co) ∧
      ((b.cellAt t).breed ≠ Pieces.Empty →
        mapAt (colorMap b' (otherColor (b.cellAt f).color)) t = none ∧
        (∀ co : Coordinate, inRangeB co.row co.col = true → co ≠ t →
          mapAt (colorMap b' (otherColor (b.cellAt f).color)) co =
            mapAt (colorMap b (otherColor (b.cellAt f).color)) co)) ∧
      ((b.cellAt t).breed = Pieces.Empty →
        colorMap b' (otherColor (b.cellAt f).color) =
          colorMap b (otherColor (b.cellAt f).color)) := by
  have hft : ¬(idx f.row = idx t.row ∧ idx f.col = idx t.col) := idx_pair_ne hf ht hne
  have htf : ¬(idx t.row = idx f.row ∧ idx t.col = idx f.col) :=
    idx_pair_ne ht hf (Ne.symm hne)
  simp only [Board.apply_move, hf, ht, Bool.and_self, if_true]
  refine ⟨_, rfl, ?_, ?_, ?_, ?_, ?_, ?_, ?_, ?_⟩
  · show setCellG (setCellG b.board f.row f.col emptyPiece) t.row t.col (b.cellAt f)
      (idx f.row) (idx f.col) = emptyPiece
    rw [setCellG_ne _ _ _ _ hft, setCellG_same]
  · show setCellG (setCellG b.board f.row f.col emptyPiece) t.row t.col (b.cellAt f)
      (idx t.row) (idx t.col) = b.cellAt f
    rw [setCellG_same]
  · intro co hco h1 h2
    show setCellG (setCellG b.board f.row f.col emptyPiece) t.row t.col (b.cellAt f)
      (idx co.row) (idx co.col) = b.cellAt co
    rw [setCellG_ne _ _ _ _ (idx_pair_ne hco ht h2),
      setCellG_ne _ _ _ _ (idx_pair_ne hco hf h1)]
    rfl
  · cases hc : (b.cellAt f).color <;>
      simp only [hc, colorMap, if_pos rfl, reduceCtorEq, if_neg, ite_false, ite_true] <;>
      exact (moveMap_posts _ f t _ hf ht hne).1
  · cases hc : (b.cellAt f).color <;>
      simp only [hc, colorMap, reduceCtorEq, ite_false, ite_true] <;>
      exact (moveMap_posts _ f t _ hf ht hne).2.1
  · intro co hco h1 h2
    cases hc : (b.cellAt f).color <;>
      simp only [hc, colorMap, reduceCtorEq, ite_false, ite_true] <;>
      exact (moveMap_posts _ f t _ hf ht hne).2.2 co hco h1 h2
  · intro hcap
    cases hc : (b.cellAt f).color <;>
      simp only [hc, colorMap, otherColor, reduceCtorEq, ite_false, ite_true,
        ne_eq, hcap, not_false_iff] <;>
      exact ⟨(removeMap_posts _ t ht).1, fun co hco h1 => (removeMap_posts _ t ht).2 co hco h1⟩
  · intro hcap
    cases hc : (b.cellAt f).color <;>
      simp only [hc, colorMap, otherColor, reduceCtorEq, ite_false, ite_true,
        ne_eq, hcap, not_true, not_not]

/-- C4 witness: the pawn push (6,0) -> (5,0) on the starting board. -/
theorem c4_apply_move_witness :
    ∃ b', defaultBoard.apply_move ⟨6, 0⟩ ⟨5, 0⟩ =
        some (b',
          if (defaultBoard.cellAt ⟨5, 0⟩).breed ≠ Pieces.Empty
            then some (defaultBoard.cellAt ⟨5, 0⟩) else none) ∧
      b'.cellAt ⟨6, 0⟩ = emptyPiece ∧
      b'.cellAt ⟨5, 0⟩ = defaultBoard.cellAt ⟨6, 0⟩ ∧
      (∀ co : Coordinate, inRangeB co.row co.col = true → co ≠ ⟨6, 0⟩ → co ≠ ⟨5, 0⟩ →
        b'.cellAt co = defaultBoard.cellAt co) ∧
      mapAt (colorMap b' (defaultBoard.cellAt ⟨6, 0⟩).color) ⟨5, 0⟩ =
        some (defaultBoard.cellAt ⟨6, 0⟩) ∧
      mapAt (colorMap b' (defaultBoard.cellAt ⟨6, 0⟩).color) ⟨6, 0⟩ = none ∧
      (∀ co : Coordinate, inRangeB co.row co.col = true → co ≠ ⟨6, 0⟩ → co ≠ ⟨5, 0⟩ →
        mapAt (colorMap b' (defaultBoard.cellAt ⟨6, 0⟩).color) co =
          mapAt (colorMap defaultBoard (defaultBoard.cellAt ⟨6, 0⟩).color) co) ∧
      ((defaultBoard.cellAt ⟨5, 0⟩).breed ≠ Pieces.Empty →
        mapAt (colorMap b' (otherColor (defaultBoard.cellAt ⟨6, 0⟩).color)) ⟨5, 0⟩ = none ∧
        (∀ co : Coordinate, inRangeB co.row co.col = true → co ≠ ⟨5, 0⟩ →
          mapAt (colorMap b' (otherColor (defaultBoard.cellAt ⟨6, 0⟩).color)) co =
            mapAt (colorMap defaultBoard (otherColor (defaultBoard.cellAt ⟨6, 0⟩).color)) co)) ∧
      ((defaultBoard.cellAt ⟨5, 0⟩).breed = Pieces.Empty →
        colorMap b' (otherColor (defaultBoard.cellAt ⟨6, 0⟩).color) =
          colorMap defaultBoard (otherColor (defaultBoard.cellAt ⟨6, 0⟩).color)) :=
  c4_apply_move defaultBoard ⟨6, 0⟩ ⟨5, 0⟩ (by decide) (by decide) (by decide)

/-! ### C6: the restricted checkmate test -/

theorem mateLoop_some_true_iff (gm : Int → Int → Option (List Coordinate)) :
    ∀ l : List (Coordinate × Piece),
      mateLoop gm l = some true ↔ ∀ e ∈ l, gm e.1.row e.1.col = some [] := by
  intro l
  induction l with
  | nil => simp [mateLoop]
  | cons hd tl ih =>
    obtain ⟨co, p⟩ := hd
    simp only [mateLoop]
    cases hgm : gm co.row co.col with
    | none => simp [hgm]
    | some moves =>
      rcases moves with _ | ⟨m, ms⟩
      · simp [hgm, ih]
      · simp [hgm]

/-- C6: is_in_checkmate reports false when the queried color has no king, and
otherwise reports true exactly when every piece of that color has an empty
post-filter move list (so it does not separately confirm the king is
attacked, and fires on stalemate as well). -/
theorem c6_checkmate (n : Nat) (b : Board) (color : Color) :
    (b.get_king_coord color = none → is_in_checkmate_fuel n b color = some false) ∧
      (∀ kc, b.get_king_coord color = some kc →
        (is_in_checkmate_fuel n b color = some true ↔
          ∀ e ∈ mapEntries (colorMap b color),
            get_moves_fuel n b e.1.row e.1.col = some [])) := by
  constructor
  · intro h
    simp [is_in_checkmate_fuel, h]
  · intro kc h
    simp only [is_in_checkmate_fuel, h]
    exact mateLoop_some_true_iff _ _

/-- C6 witness: the kingless empty board is not checkmated; on the lone-king
board the characterization applies with the king at (0,0). -/
theorem c6_checkmate_witness :
    is_in_checkmate_fuel 1 Board.new Color.White = some false ∧
      (is_in_checkmate_fuel 1 loneKingBoard Color.White = some true ↔
        ∀ e ∈ mapEntries (colorMap loneKingBoard Color.White),
          get_moves_fuel 1 loneKingBoard e.1.row e.1.col = some []) :=
  ⟨(c6_checkmate 1 Board.new Color.White).1 (by decide),
    (c6_checkmate 1 loneKingBoard Color.White).2 ⟨0, 0⟩ (by decide)⟩

/-! ### C2: is_in_check does NOT terminate on two-king boards

The call cycle, each step taking the first candidate reached before any
recursive call: is_in_check(White, B0) simulates the black king's candidate
(0,7)->(1,7) giving B1; is_in_check(Black, B1) first simulates the white
king's capture (2,7)->(1,7) (whose nested check test terminates: no black
piece remains), undoes it, then simulates (2,7)->(3,7) giving B3;
is_in_check(White, B3) simulates (1,7)->(0,7) giving B4; is_in_check(Black,
B4) simulates (3,7)->(2,7) giving B0 again. -/

/-- Two boards with equal fields are equal (used to decide equalities whose
derived Decidable instance does not reduce well). -/
theorem boardExt {a b : Board} (h1 : a.board = b.board) (h2 : a.turn = b.turn)
    (h3 : a.castling_black_king_side = b.castling_black_king_side)
    (h4 : a.castling_black_queen_side = b.castling_black_queen_side)
    (h5 : a.castling_white_king_side = b.castling_white_king_side)
    (h6 : a.castling_white_queen_side = b.castling_white_queen_side)
    (h7 : a.white_pieces = b.white_pieces) (h8 : a.black_pieces = b.black_pieces)
    (h9 : a.last_2_moves_pawn = b.last_2_moves_pawn)
    (h10 : a.halfmove_clock = b.halfmove_clock)
    (h11 : a.fullmove_number = b.fullmove_number) : a = b := by
  cases a; cases b; simp_all

theorem option_board_eq {ob : Option Board} {b : Board} (hs : ob.isSome = true)
    (h1 : (ob.getD Board.new).board = b.board)
    (h2 : (ob.getD Board.new).turn = b.turn)
    (h3 : (ob.getD Board.new).castling_black_king_side = b.castling_black_king_side)
    (h4 : (ob.getD Board.new).castling_black_queen_side = b.castling_black_queen_side)
    (h5 : (ob.getD Board.new).castling_white_king_side = b.castling_white_king_side)
    (h6 : (ob.getD Board.new).castling_white_queen_side = b.castling_white_queen_side)
    (h7 : (ob.getD Board.new).white_pieces = b.white_pieces)
    (h8 : (ob.getD Board.new).black_pieces = b.black_pieces)
    (h9 : (ob.getD Board.new).last_2_moves_pawn = b.last_2_moves_pawn)
    (h10 : (ob.getD Board.new).halfmove_clock = b.halfmove_clock)
    (h11 : (ob.getD Board.new).fullmove_number = b.fullmove_number) :
    ob = some b := by
  rcases ob with _ | x
  · simp at hs
  · simp only [Option.getD_some] at h1 h2 h3 h4 h5 h6 h7 h8 h9 h10 h11
    exact congrArg some (boardExt h1 h2 h3 h4 h5 h6 h7 h8 h9 h10 h11)

theorem option_board_pair_eq {op : Option (Board × Option Piece)} {b : Board}
    {cap : Option Piece} (hs : op.isSome = true)
    (hcap : (op.getD (Board.new, none)).2 = cap)
    (h1 : (op.getD (Board.new, none)).1.board = b.board)
    (h2 : (op.getD (Board.new, none)).1.turn = b.turn)
    (h3 : (op.getD (Board.new, none)).1.castling_black_king_side = b.castling_black_king_side)
    (h4 : (op.getD (Board.new, none)).1.castling_black_queen_side = b.castling_black_queen_side)
    (h5 : (op.getD (Board.new, none)).1.castling_white_king_side = b.castling_white_king_side)
    (h6 : (op.getD (Board.new, none)).1.castling_white_queen_side = b.castling_white_queen_side)
    (h7 : (op.getD (Board.new, none)).1.white_pieces = b.white_pieces)
    (h8 : (op.getD (Board.new, none)).1.black_pieces = b.black_pieces)
    (h9 : (op.getD (Board.new, none)).1.last_2_moves_pawn = b.last_2_moves_pawn)
    (h10 : (op.getD (Board.new, none)).1.halfmove_clock = b.halfmove_clock)
    (h11 : (op.getD (Board.new, none)).1.fullmove_number = b.fullmove_number) :
    op = some (b, cap) := by
  rcases op with _ | ⟨x, c⟩
  · simp at hs
  · simp only [Option.getD_some] at hcap h1 h2 h3 h4 h5 h6 h7 h8 h9 h10 h11
    subst hcap
    exact congrArg some (congrArg (fun y => (y, c))
      (boardExt h1 h2 h3 h4 h5 h6 h7 h8 h9 h10 h11))

theorem cycK0 : cycleB0.get_king_coord Color.White = some ⟨2, 7⟩ := by decide

theorem cycE0 : mapEntries (colorMap cycleB0 (otherColor Color.White)) =
    [(⟨0, 7⟩, ⟨Pieces.King, Color.Black⟩)] := by decide

theorem cycIR07 : inRangeB 0 7 = true := by decide

theorem cycCand0 : filteredCandidates cycleB0 0 7 = [⟨1, 7⟩, ⟨0, 6⟩, ⟨1, 6⟩] := by decide

theorem cycClone0 : cloneViaFen cycleB0 = some cycleB0 := by decide

theorem cycCol0 : (cycleB0.cellAt ⟨0, 7⟩).color = Color.Black := by decide

theorem cycApp0 : cycleB0.apply_move ⟨0, 7⟩ ⟨1, 7⟩ = some (cycleB1, none) := by decide

theorem cycApp0C (a b : Coordinate) (ha : a = ⟨0, 7⟩) (hb : b = ⟨1, 7⟩) :
    cycleB0.apply_move a b = some (cycleB1, none) := by subst ha hb; exact cycApp0

theorem cycCol0C (co : Coordinate) (h : co = ⟨0, 7⟩) :
    (cycleB0.cellAt co).color = Color.Black := by subst h; exact cycCol0

theorem link0 (oracle : Board → Color → Option Bool)
    (h : oracle cycleB1 Color.Black = none) :
    is_in_checkBody oracle cycleB0 Color.White = none := by
  simp only [is_in_checkBody, cycK0, cycE0, checkLoop, get_movesO, cycIR07,
    filter_check_movesO, cycClone0, cycCol0C, filterLoop, cycApp0C, h, show (0 : Int) + 1 = 1 from by norm_num,
    show (7 : Int) - 1 = 6 from by norm_num, show (1 : Int) - 1 = 0 from by norm_num,
    show (1 : Int) + 1 = 2 from by norm_num, show (2 : Int) - 1 = 1 from by norm_num,
    show (2 : Int) + 1 = 3 from by norm_num, show (3 : Int) - 1 = 2 from by norm_num,
    show (3 : Int) + 1 = 4 from by norm_num, zero_add, Nat.cast_ofNat, Nat.cast_zero,
    Nat.cast_one, Coordinate.mk.injEq, and_self, and_true, true_and, ite_self, if_true]

theorem cycK1 : cycleB1.get_king_coord Color.Black = some ⟨1, 7⟩ := by decide

theorem cycE1 : mapEntries (colorMap cycleB1 (otherColor Color.Black)) =
    [(⟨2, 7⟩, ⟨Pieces.King, Color.White⟩)] := by decide

theorem cycIR27 : inRangeB 2 7 = true := by decide

theorem cycCand1 : filteredCandidates cycleB1 2 7 =
    [⟨1, 7⟩, ⟨3, 7⟩, ⟨1, 6⟩, ⟨2, 6⟩, ⟨3, 6⟩] := by decide

theorem cycClone1 : cloneViaFen cycleB1 = some cycleB1 :=
  option_board_eq (by decide) (by decide) (by decide) (by decide) (by decide)
    (by decide) (by decide) (by decide) (by decide) (by decide) (by decide) (by decide)

theorem cycCol1 : (cycleB1.cellAt ⟨2, 7⟩).color = Color.White := by decide

theorem cycApp1a : cycleB1.apply_move ⟨2, 7⟩ ⟨1, 7⟩ =
    some (cycleB2, some ⟨Pieces.King, Color.Black⟩) := by decide

theorem cycApp1aC (a b : Coordinate) (ha : a = ⟨2, 7⟩) (hb : b = ⟨1, 7⟩) :
    cycleB1.apply_move a b = some (cycleB2, some ⟨Pieces.King, Color.Black⟩) := by
  subst ha hb; exact cycApp1a

theorem cycCol1C (co : Coordinate) (h : co = ⟨2, 7⟩) :
    (cycleB1.cellAt co).color = Color.White := by subst h; exact cycCol1

theorem cycUndo1 : undoStep cycleB2 ⟨2, 7⟩ ⟨1, 7⟩ (some ⟨Pieces.King, Color.Black⟩) =
    some cycleB1 :=
  option_board_eq (by decide) (by decide) (by decide) (by decide) (by decide)
    (by decide) (by decide) (by decide) (by decide) (by decide) (by decide) (by decide)

theorem cycApp1b : cycleB1.apply_move ⟨2, 7⟩ ⟨3, 7⟩ = some (cycleB3, none) := by decide

theorem cycApp1bC (a b : Coordinate) (ha : a = ⟨2, 7⟩) (hb : b = ⟨3, 7⟩) :
    cycleB1.apply_move a b = some (cycleB3, none) := by subst ha hb; exact cycApp1b

theorem cycUndo1C (a b : Coordinate) (ha : a = ⟨2, 7⟩) (hb : b = ⟨1, 7⟩) :
    undoStep cycleB2 a b (some ⟨Pieces.King, Color.Black⟩) = some cycleB1 := by
  subst ha hb; exact cycUndo1

/-- When the check test of the capture simulation runs out of fuel, the whole
test on cycleB1 has no result. -/
theorem link1A (oracle : Board → Color → Option Bool)
    (h : oracle cycleB2 Color.White = none) :
    is_in_checkBody oracle cycleB1 Color.Black = none := by
  simp only [is_in_checkBody, cycK1, cycE1, checkLoop, get_movesO, cycIR27,
    filter_check_movesO, cycClone1, cycCol1C, filterLoop, cycApp1aC, h, show (0 : Int) + 1 = 1 from by norm_num,
    show (7 : Int) - 1 = 6 from by norm_num, show (1 : Int) - 1 = 0 from by norm_num,
    show (1 : Int) + 1 = 2 from by norm_num, show (2 : Int) - 1 = 1 from by norm_num,
    show (2 : Int) + 1 = 3 from by norm_num, show (3 : Int) - 1 = 2 from by norm_num,
    show (3 : Int) + 1 = 4 from by norm_num, zero_add, Nat.cast_ofNat, Nat.cast_zero,
    Nat.cast_one, Coordinate.mk.injEq, and_self, and_true, true_and, ite_self, if_true]

/-- With enough fuel the capture simulation reports "not in check" and the
test proceeds to the candidate (2,7)->(3,7), i.e. to cycleB3. -/
theorem link1B (oracle : Board → Color → Option Bool)
    (h2 : oracle cycleB2 Color.White = some false)
    (h3 : oracle cycleB3 Color.White = none) :
    is_in_checkBody oracle cycleB1 Color.Black = none := by
  simp only [is_in_checkBody, cycK1, cycE1, checkLoop, get_movesO, cycIR27,
    filter_check_movesO, cycClone1, cycCol1C, filterLoop, cycApp1aC, h2,
    cycUndo1C, cycApp1bC, h3, show (0 : Int) + 1 = 1 from by norm_num,
    show (7 : Int) - 1 = 6 from by norm_num, show (1 : Int) - 1 = 0 from by norm_num,
    show (1 : Int) + 1 = 2 from by norm_num, show (2 : Int) - 1 = 1 from by norm_num,
    show (2 : Int) + 1 = 3 from by norm_num, show (3 : Int) - 1 = 2 from by norm_num,
    show (3 : Int) + 1 = 4 from by norm_num, zero_add, Nat.cast_ofNat, Nat.cast_zero,
    Nat.cast_one, Coordinate.mk.injEq, and_self, and_true, true_and, ite_self, if_true]

theorem cycK2 : cycleB2.get_king_coord Color.White = some ⟨1, 7⟩ := by decide

theorem cycE2 : mapEntries (colorMap cycleB2 (otherColor Color.White)) = [] := by decide

/-- On cycleB2 the black king has been captured: the check test for White
terminates at once, at any oracle. -/
theorem capFalse (oracle : Board → Color → Option Bool) :
    is_in_checkBody oracle cycleB2 Color.White = some false := by
  simp only [is_in_checkBody, cycK2, cycE2, checkLoop]

theorem cycK3 : cycleB3.get_king_coord Color.White = some ⟨3, 7⟩ := by decide

theorem cycE3 : mapEntries (colorMap cycleB3 (otherColor Color.White)) =
    [(⟨1, 7⟩, ⟨Pieces.King, Color.Black⟩)] := by decide

theorem cycIR17 : inRangeB 1 7 = true := by decide

theorem cycCand3 : filteredCandidates cycleB3 1 7 =
    [⟨0, 7⟩, ⟨2, 7⟩, ⟨0, 6⟩, ⟨1, 6⟩, ⟨2, 6⟩] := by decide

theorem cycClone3 : cloneViaFen cycleB3 = some cycleB3 :=
  option_board_eq (by decide) (by decide) (by decide) (by decide) (by decide)
    (by decide) (by decide) (by decide) (by decide) (by decide) (by decide) (by decide)

theorem cycCol3 : (cycleB3.cellAt ⟨1, 7⟩).color = Color.Black := by decide

theorem cycApp3 : cycleB3.apply_move ⟨1, 7⟩ ⟨0, 7⟩ = some (cycleB4, none) := by decide

theorem cycApp3C (a b : Coordinate) (ha : a = ⟨1, 7⟩) (hb : b = ⟨0, 7⟩) :
    cycleB3.apply_move a b = some (cycleB4, none) := by subst ha hb; exact cycApp3

theorem cycCol3C (co : Coordinate) (h : co = ⟨1, 7⟩) :
    (cycleB3.cellAt co).color = Color.Black := by subst h; exact cycCol3

theorem link2 (oracle : Board → Color → Option Bool)
    (h : oracle cycleB4 Color.Black = none) :
    is_in_checkBody oracle cycleB3 Color.White = none := by
  simp only [is_in_checkBody, cycK3, cycE3, checkLoop, get_movesO, cycIR17,
    filter_check_movesO, cycClone3, cycCol3C, filterLoop, cycApp3C, h, show (0 : Int) + 1 = 1 from by norm_num,
    show (7 : Int) - 1 = 6 from by norm_num, show (1 : Int) - 1 = 0 from by norm_num,
    show (1 : Int) + 1 = 2 from by norm_num, show (2 : Int) - 1 = 1 from by norm_num,
    show (2 : Int) + 1 = 3 from by norm_num, show (3 : Int) - 1 = 2 from by norm_num,
    show (3 : Int) + 1 = 4 from by norm_num, zero_add, Nat.cast_ofNat, Nat.cast_zero,
    Nat.cast_one, Coordinate.mk.injEq, and_self, and_true, true_and, ite_self, if_true]

theorem cycK4 : cycleB4.get_king_coord Color.Black = some ⟨0, 7⟩ := by decide

theorem cycE4 : mapEntries (colorMap cycleB4 (otherColor Color.Black)) =
    [(⟨3, 7⟩, ⟨Pieces.King, Color.White⟩)] := by decide

theorem cycIR37 : inRangeB 3 7 = true := by decide

theorem cycCand4 : filteredCandidates cycleB4 3 7 =
    [⟨2, 7⟩, ⟨4, 7⟩, ⟨2, 6⟩, ⟨3, 6⟩, ⟨4, 6⟩] := by decide

theorem cycClone4 : cloneViaFen cycleB4 = some cycleB4 :=
  option_board_eq (by decide) (by decide) (by decide) (by decide) (by decide)
    (by decide) (by decide) (by decide) (by decide) (by decide) (by decide) (by decide)

theorem cycCol4 : (cycleB4.cellAt ⟨3, 7⟩).color = Color.White := by decide

/-- The cycle closes: the white king's first candidate on cycleB4 recreates
cycleB0 exactly (same grid, maps, turn, flags, marker and clocks). -/
theorem cycApp4 : cycleB4.apply_move ⟨3, 7⟩ ⟨2, 7⟩ = some (cycleB0, none) :=
  option_board_pair_eq (by decide) (by decide) (by decide) (by decide) (by decide)
    (by decide) (by decide) (by decide) (by decide) (by decide) (by decide)
    (by decide) (by decide)

theorem cycApp4C (a b : Coordinate) (ha : a = ⟨3, 7⟩) (hb : b = ⟨2, 7⟩) :
    cycleB4.apply_move a b = some (cycleB0, none) := by subst ha hb; exact cycApp4

theorem cycCol4C (co : Coordinate) (h : co = ⟨3, 7⟩) :
    (cycleB4.cellAt co).color = Color.White := by subst h; exact cycCol4

theorem link3 (oracle : Board → Color → Option Bool)
    (h : oracle cycleB0 Color.White = none) :
    is_in_checkBody oracle cycleB4 Color.Black = none := by
  simp only [is_in_checkBody, cycK4, cycE4, checkLoop, get_movesO, cycIR37,
    filter_check_movesO, cycClone4, cycCol4C, filterLoop, cycApp4C, h, show (0 : Int) + 1 = 1 from by norm_num,
    show (7 : Int) - 1 = 6 from by norm_num, show (1 : Int) - 1 = 0 from by norm_num,
    show (1 : Int) + 1 = 2 from by norm_num, show (2 : Int) - 1 = 1 from by norm_num,
    show (2 : Int) + 1 = 3 from by norm_num, show (3 : Int) - 1 = 2 from by norm_num,
    show (3 : Int) + 1 = 4 from by norm_num, zero_add, Nat.cast_ofNat, Nat.cast_zero,
    Nat.cast_one, Coordinate.mk.injEq, and_self, and_true, true_and, ite_self, if_true]

theorem cycleAux : ∀ n : Nat,
    is_in_check_fuel n cycleB0 Color.White = none ∧
      is_in_check_fuel n cycleB1 Color.Black = none ∧
      is_in_check_fuel n cycleB3 Color.White = none ∧
      is_in_check_fuel n cycleB4 Color.Black = none := by
  intro n
  induction n with
  | zero => exact ⟨rfl, rfl, rfl, rfl⟩
  | succ m ih =>
    refine ⟨link0 _ ih.2.1, ?_, link2 _ ih.2.2.2, link3 _ ih.1⟩
    cases m with
    | zero => exact link1A _ rfl
    | succ k => exact link1B _ (capFalse (is_in_check_fuel k)) ih.2.2.1

/-- C2: on the two-king board cycleB0 (black king h8, white king h6) the
check test for White has no result at ANY recursion depth: is_in_check calls
get_moves, which unconditionally runs filter_check_moves, which calls
is_in_check on the simulated clone, and the simulation cycle above repeats
forever.  (The claim's raw-attacks mode, skipping the legality filter, does
not exist in the code: get_moves always ends in filter_check_moves.) -/
theorem c2_is_in_check_diverges :
    ∀ n : Nat, is_in_check_fuel n cycleB0 Color.White = none :=
  fun n => (cycleAux n).1

/-! ### C3: exactly which inputs are fatal -/

theorem scanFen_none_iff (cs : List Char) : ∀ (r c : Int) (b : Board),
    (scanFen cs r c b = none ↔ scanHitsOOB cs r c = true) := by
  induction cs with
  | nil => intro r c b; simp [scanFen, scanHitsOOB]
  | cons ch rest ih =>
    intro r c b
    simp only [scanFen, scanHitsOOB]
    by_cases h1 : ch = '/'
    · simp [h1, ih]
    · by_cases h2 : ch.isDigit
      · simp [h1, h2, ih]
      · by_cases h3 : r < 0 ∨ 7 < r ∨ c < 0 ∨ 7 < c
        · simp [h1, h2, h3, Board.place_piece]
        · simp [h1, h2, h3, Board.place_piece, ih]

/-- C3 counterexample: a notation text with only four fields (a recognized
side-to-move token and no out-of-range placement) is nevertheless fatal: the
missing-field unwrap panics, a third condition the claim does not name. -/
theorem c3_fatal_counterexample :
    Board.new.load_fen "8/8/8/8/8/8/8/8 w - -" = none ∧
      invalidTurnToken "8/8/8/8/8/8/8/8 w - -" = false ∧
      boardScanOutOfRange "8/8/8/8/8/8/8/8 w - -" = false := by
  decide

/-- C3 (amended): exactly THREE conditions make load_fen fatal: fewer than six
space-separated fields, a side-to-move token that is neither recognized
letter, and a board-field scan that places a piece outside 0..7; every other
notation text loads without error (unrecognized board characters are placed
as Empty, see C10). -/
theorem c3_load_fen_fatal_iff (b : Board) (fen : String) :
    (b.load_fen fen = none ↔
      (fewerThanSixFields fen = true ∨ invalidTurnToken fen = true ∨
        boardScanOutOfRange fen = true)) := by
  unfold Board.load_fen fewerThanSixFields invalidTurnToken boardScanOutOfRange
  rcases hs : splitSp fen.data with _ | ⟨fb, _ | ⟨ft, _ | ⟨f3, _ | ⟨f4, _ | ⟨f5, _ | ⟨f6, tail⟩⟩⟩⟩⟩⟩ <;>
    simp only [List.length_cons, List.length_nil]
  · simp
  · simp [scanHitsOOB]
  · simp
  · simp
  · simp
  · simp
  · by_cases hw : ft = ['w']
    · simp [hw, scanFen_none_iff]
    · by_cases hb : ft = ['b']
      · simp [hw, hb, scanFen_none_iff]
      · simp [hw, hb]

/-! ### C10: Empty-kind entries leak into the white index map -/

theorem coe_idx {r : Int} (h0 : 0 ≤ r) (h8 : r < 8) : ((idx r : Fin 8) : Int) = r := by
  simp only [idx]
  omega

theorem charPiece_unrecognized {ch : Char} (h : unrecognizedBoardChar ch = true) :
    charPiece ch = emptyPiece ∧ ch ≠ '/' ∧ ch.isDigit = false := by
  simp only [unrecognizedBoardChar, Bool.not_eq_true', Bool.or_eq_false_iff,
    decide_eq_false_iff_not, List.mem_cons, List.mem_singleton] at h
  obtain ⟨⟨hs, hd⟩, hl⟩ := h
  push_neg at hl
  obtain ⟨e1, e2, e3, e4, e5, e6, e7, e8, e9, e10, e11, e12, -⟩ := hl
  refine ⟨?_, hs, hd⟩
  simp only [charPiece, if_neg e1, if_neg e2, if_neg e3, if_neg e4, if_neg e5, if_neg e6,
    if_neg e7, if_neg e8, if_neg e9, if_neg e10, if_neg e11, if_neg e12]

/-- The board-field scan never changes a square lexicographically before its
current position (rows above, or the same row left of the current column). -/
theorem scanFen_preserves (cs : List Char) : ∀ (r c : Int) (b b' : Board),
    scanFen cs r c b = some b' → ∀ i j : Fin 8,
      ((i : Int) < r ∨ ((i : Int) = r ∧ (j : Int) < c)) →
      b'.board i j = b.board i j ∧ b'.white_pieces i j = b.white_pieces i j ∧
        b'.black_pieces i j = b.black_pieces i j := by
  induction cs with
  | nil =>
    intro r c b b' h i j _
    simp only [scanFen, Option.some.injEq] at h
    subst h
    exact ⟨rfl, rfl, rfl⟩
  | cons ch rest ih =>
    intro r c b b' h i j hij
    simp only [scanFen] at h
    by_cases h1 : ch = '/'
    · rw [if_pos h1] at h
      exact ih (r + 1) 0 b b' h i j (Or.inl (by omega))
    · rw [if_neg h1] at h
      by_cases h2 : ch.isDigit
      · rw [if_pos h2] at h
        refine ih _ _ b b' h i j ?_
        have hd : (0 : Int) ≤ ((ch.toNat - 48 : Nat) : Int) := Int.natCast_nonneg _
        rcases hij with ha | ⟨ha, hb⟩
        · exact Or.inl ha
        · exact Or.inr ⟨ha, by omega⟩
      · rw [if_neg h2] at h
        cases hp : Board.place_piece b (charPiece ch) r c with
        | none => rw [hp] at h; cases h
        | some b1 =>
          rw [hp] at h
          have hrange : ¬(r < 0 ∨ 7 < r ∨ c < 0 ∨ 7 < c) := by
            by_contra hcon
            simp only [Board.place_piece, if_pos hcon] at hp
            exact Option.noConfusion hp
          have hne : ¬(i = idx r ∧ j = idx c) := by
            rintro ⟨hi, hj⟩
            have hi' : (i : Int) = r := by
              rw [hi]; exact coe_idx (by omega) (by omega)
            have hj' : (j : Int) = c := by
              rw [hj]; exact coe_idx (by omega) (by omega)
            omega
          have hb1 : b1.board i j = b.board i j ∧
              b1.white_pieces i j = b.white_pieces i j ∧
              b1.black_pieces i j = b.black_pieces i j := by
            simp only [Board.place_piece, if_neg hrange, Option.some.injEq] at hp
            subst hp
            refine ⟨setCellG_ne _ _ _ _ hne, ?_, ?_⟩
            · by_cases hcw : (charPiece ch).color = Color.White
              · simp only [if_pos hcw]; exact mapInsert_ne _ _ _ hne
              · simp only [if_neg hcw]
            · by_cases hcw : (charPiece ch).color ≠ Color.White
              · simp only [if_pos hcw]; exact mapInsert_ne _ _ _ hne
              · simp only [if_neg hcw]
          have hrest := ih r (c + 1) b1 b' h i j
            (by rcases hij with ha | ⟨ha, hb⟩
                · exact Or.inl ha
                · exact Or.inr ⟨ha, by omega⟩)
          exact ⟨hrest.1.trans hb1.1, hrest.2.1.trans hb1.2.1, hrest.2.2.trans hb1.2.2⟩

/-- Scanning a board field containing an unrecognized character leaves, at the
square where that character lands, an Empty grid cell together with an
Empty-kind entry in the white index map. -/
theorem scanFen_unrecognized (pre : List Char) : ∀ (post : List Char) (ch : Char)
    (r c : Int) (b b' : Board),
    unrecognizedBoardChar ch = true →
    scanFen (pre ++ ch :: post) r c b = some b' →
    b'.board (idx (scanPos pre (r, c)).1) (idx (scanPos pre (r, c)).2) = emptyPiece ∧
      b'.white_pieces (idx (scanPos pre (r, c)).1) (idx (scanPos pre (r, c)).2) =
        some emptyPiece := by
  induction pre with
  | nil =>
    intro post ch r c b b' hch h
    obtain ⟨hcp, hslash, hdig⟩ := charPiece_unrecognized hch
    simp only [List.nil_append, scanFen, if_neg hslash,
      if_neg (by simp [hdig] : ¬ch.isDigit = true)] at h
    cases hp : Board.place_piece b (charPiece ch) r c with
    | none => rw [hp] at h; cases h
    | some b1 =>
      rw [hp] at h
      have hrange : ¬(r < 0 ∨ 7 < r ∨ c < 0 ∨ 7 < c) := by
        by_contra hcon
        simp only [Board.place_piece, if_pos hcon] at hp
        exact Option.noConfusion hp
      have hb1 : b1.board (idx r) (idx c) = emptyPiece ∧
          b1.white_pieces (idx r) (idx c) = some emptyPiece := by
        simp only [Board.place_piece, if_neg hrange, Option.some.injEq] at hp
        subst hp
        rw [hcp]
        refine ⟨setCellG_same _ _ _ _, ?_⟩
        simp only [if_pos (rfl : emptyPiece.color = Color.White)]
        exact mapInsert_same _ ⟨r, c⟩ emptyPiece
      have hpres := scanFen_preserves post r (c + 1) b1 b' h (idx r) (idx c)
        (Or.inr ⟨coe_idx (by omega) (by omega), by rw [coe_idx (by omega) (by omega)]; omega⟩)
      simp only [scanPos]
      exact ⟨hpres.1.trans hb1.1, hpres.2.1.trans hb1.2⟩
  | cons ch2 rest2 ih =>
    intro post ch r c b b' hch h
    simp only [List.cons_append, scanFen] at h
    simp only [scanPos]
    by_cases h1 : ch2 = '/'
    · rw [if_pos h1] at h ⊢
      exact ih post ch (r + 1) 0 b b' hch h
    · rw [if_neg h1] at h ⊢
      by_cases h2 : ch2.isDigit
      · rw [if_pos h2] at h ⊢
        exact ih post ch r _ b b' hch h
      · rw [if_neg h2] at h ⊢
        cases hp : Board.place_piece b (charPiece ch2) r c with
        | none => rw [hp] at h; cases h
        | some b1 =>
          rw [hp] at h
          exact ih post ch r (c + 1) b1 b' hch h

/-- C10: place_piece with an Empty-kind White-sentinel piece inserts it into
the white index map; consequently, loading any notation text whose board
field contains an unrecognized character leaves the white map holding an
Empty-kind entry at that character's square while the grid cell there is
Empty, so the grid/index-map correspondence fails after such a load. -/
theorem c10_empty_entries :
    (∀ (p : Piece) (r c : Int) (b b2 : Board), p.breed = Pieces.Empty →
      p.color = Color.White → b.place_piece p r c = some b2 →
      b2.white_pieces (idx r) (idx c) = some p) ∧
    (∀ (b b1 : Board) (fen : String) (fb : List Char) (rest : List (List Char))
        (pre post : List Char) (ch : Char),
      splitSp fen.data = fb :: rest →
      b.load_fen fen = some b1 →
      fb = pre ++ ch :: post →
      unrecognizedBoardChar ch = true →
      b1.white_pieces (idx (scanPos pre (0, 0)).1) (idx (scanPos pre (0, 0)).2) =
          some emptyPiece ∧
        (b1.board (idx (scanPos pre (0, 0)).1) (idx (scanPos pre (0, 0)).2)).breed =
          Pieces.Empty ∧
        ¬mapsMatchGrid b1) := by
  constructor
  · intro p r c b b2 _hb hc hp
    cases hrange : decide (r < 0 ∨ 7 < r ∨ c < 0 ∨ 7 < c) with
    | true =>
      simp only [Board.place_piece, if_pos (of_decide_eq_true hrange)] at hp
      exact Option.noConfusion hp
    | false =>
      simp only [Board.place_piece, if_neg (of_decide_eq_false hrange),
        Option.some.injEq] at hp
      subst hp
      simp only [if_pos hc]
      exact mapInsert_same _ ⟨r, c⟩ p
  · intro b b1 fen fb rest pre post ch hsplit hload hfb hch
    unfold Board.load_fen at hload
    rw [hsplit] at hload
    rcases rest with _ | ⟨ft, _ | ⟨f3, _ | ⟨f4, _ | ⟨f5, _ | ⟨f6, tail⟩⟩⟩⟩⟩ <;>
      try cases hload
    by_cases hw : ft = ['w']
    · simp only [hw, ite_true, List.cons.injEq] at hload
      rw [hfb] at hload
      have := scanFen_unrecognized pre post ch 0 0 _ b1 hch hload
      refine ⟨this.2, by rw [this.1]; rfl, ?_⟩
      intro hmm
      have h2 := (hmm (idx (scanPos pre (0, 0)).1) (idx (scanPos pre (0, 0)).2)).1
      rw [this.1, this.2] at h2
      simp at h2
      exact h2.1 rfl
    · by_cases hb2 : ft = ['b']
      · simp only [hb2, ite_true, List.cons.injEq,
          show (['b'] : List Char) = ['w'] ↔ False by simp, if_false, ite_false] at hload
        rw [hfb] at hload
        have := scanFen_unrecognized pre post ch 0 0 _ b1 hch hload
        refine ⟨this.2, by rw [this.1]; rfl, ?_⟩
        intro hmm
        have h2 := (hmm (idx (scanPos pre (0, 0)).1) (idx (scanPos pre (0, 0)).2)).1
        rw [this.1, this.2] at h2
        simp at h2
        exact h2.1 rfl
      · simp only [if_neg hw, if_neg hb2] at hload
        exact Option.noConfusion hload

/-- C10 witness: placing the Empty sentinel at (0,0) inserts it into the
white map; loading "x7/8/8/8/8/8/8/8 w - - 0 1" leaves an Empty-kind white
map entry at (0,0) with an Empty grid cell and breaks the correspondence. -/
theorem c10_empty_entries_witness :
    ((Board.new.place_piece emptyPiece 0 0).getD Board.new).white_pieces (idx 0) (idx 0) =
        some emptyPiece ∧
      (c10WitnessBoard.white_pieces (idx (scanPos ([] : List Char) (0, 0)).1)
          (idx (scanPos ([] : List Char) (0, 0)).2) = some emptyPiece ∧
        (c10WitnessBoard.board (idx (scanPos ([] : List Char) (0, 0)).1)
            (idx (scanPos ([] : List Char) (0, 0)).2)).breed = Pieces.Empty ∧
        ¬mapsMatchGrid c10WitnessBoard) :=
  ⟨c10_empty_entries.1 emptyPiece 0 0 Board.new _ rfl rfl (by decide),
    c10_empty_entries.2 Board.new c10WitnessBoard "x7/8/8/8/8/8/8/8 w - - 0 1"
      ("x7/8/8/8/8/8/8/8".toList) [['w'], ['-'], ['-'], ['0'], ['1']]
      [] ("7/8/8/8/8/8/8/8".toList) 'x' (by decide) (by decide) (by decide) (by decide)⟩

/-! ### C7: the board field round-trips through the codec -/

/-- The board-field scan touches only the grid and the index maps. -/
theorem scanFen_fields (cs : List Char) : ∀ (r c : Int) (b b' : Board),
    scanFen cs r c b = some b' →
    b'.turn = b.turn ∧
      b'.castling_white_king_side = b.castling_white_king_side ∧
      b'.castling_white_queen_side = b.castling_white_queen_side ∧
      b'.castling_black_king_side = b.castling_black_king_side ∧
      b'.castling_black_queen_side = b.castling_black_queen_side ∧
      b'.last_2_moves_pawn = b.last_2_moves_pawn ∧
      b'.halfmove_clock = b.halfmove_clock ∧
      b'.fullmove_number = b.fullmove_number := by
  induction cs with
  | nil =>
    intro r c b b' h
    simp only [scanFen, Option.some.injEq] at h
    subst h
    exact ⟨rfl, rfl, rfl, rfl, rfl, rfl, rfl, rfl⟩
  | cons ch rest ih =>
    intro r c b b' h
    simp only [scanFen] at h
    by_cases h1 : ch = '/'
    · rw [if_pos h1] at h; exact ih _ _ _ _ h
    · rw [if_neg h1] at h
      by_cases h2 : ch.isDigit
      · rw [if_pos h2] at h; exact ih _ _ _ _ h
      · rw [if_neg h2] at h
        cases hp : Board.place_piece b (charPiece ch) r c with
        | none => rw [hp] at h; cases h
        | some b1 =>
          rw [hp] at h
          have hb1 : b1.turn = b.turn ∧
              b1.castling_white_king_side = b.castling_white_king_side ∧
              b1.castling_white_queen_side = b.castling_white_queen_side ∧
              b1.castling_black_king_side = b.castling_black_king_side ∧
              b1.castling_black_queen_side = b.castling_black_queen_side ∧
              b1.last_2_moves_pawn = b.last_2_moves_pawn ∧
              b1.halfmove_clock = b.halfmove_clock ∧
              b1.fullmove_number = b.fullmove_number := by
            unfold Board.place_piece at hp
            by_cases hr : r < 0 ∨ 7 < r ∨ c < 0 ∨ 7 < c
            · rw [if_pos hr] at hp; cases hp
            · rw [if_neg hr] at hp
              simp only [Option.some.injEq] at hp
              subst hp
              exact ⟨rfl, rfl, rfl, rfl, rfl, rfl, rfl, rfl⟩
          obtain ⟨a1, a2, a3, a4, a5, a6, a7, a8⟩ := ih _ _ _ _ h
          exact ⟨a1.trans hb1.1, a2.trans hb1.2.1, a3.trans hb1.2.2.1,
            a4.trans hb1.2.2.2.1, a5.trans hb1.2.2.2.2.1, a6.trans hb1.2.2.2.2.2.1,
            a7.trans hb1.2.2.2.2.2.2.1, a8.trans hb1.2.2.2.2.2.2.2⟩

/-- Every piece the scan places keeps the grid tidy: an Empty breed only ever
appears as the White sentinel. -/
theorem charPiece_tidy (ch : Char) :
    (charPiece ch).breed = Pieces.Empty → charPiece ch = emptyPiece := by
  intro h
  by_cases h1 : ch = 'K'
  · rw [h1] at h; exact absurd h (by decide)
  by_cases h2 : ch = 'Q'
  · rw [h2] at h; exact absurd h (by decide)
  by_cases h3 : ch = 'R'
  · rw [h3] at h; exact absurd h (by decide)
  by_cases h4 : ch = 'B'
  · rw [h4] at h; exact absurd h (by decide)
  by_cases h5 : ch = 'N'
  · rw [h5] at h; exact absurd h (by decide)
  by_cases h6 : ch = 'P'
  · rw [h6] at h; exact absurd h (by decide)
  by_cases h7 : ch = 'k'
  · rw [h7] at h; exact absurd h (by decide)
  by_cases h8 : ch = 'q'
  · rw [h8] at h; exact absurd h (by decide)
  by_cases h9 : ch = 'r'
  · rw [h9] at h; exact absurd h (by decide)
  by_cases h10 : ch = 'b'
  · rw [h10] at h; exact absurd h (by decide)
  by_cases h11 : ch = 'n'
  · rw [h11] at h; exact absurd h (by decide)
  by_cases h12 : ch = 'p'
  · rw [h12] at h; exact absurd h (by decide)
  simp only [charPiece, if_neg h1, if_neg h2, if_neg h3, if_neg h4, if_neg h5,
    if_neg h6, if_neg h7, if_neg h8, if_neg h9, if_neg h10, if_neg h11, if_neg h12]

theorem scanFen_tidy (cs : List Char) : ∀ (r c : Int) (b b' : Board),
    scanFen cs r c b = some b' → TidyGrid b.board → TidyGrid b'.board := by
  induction cs with
  | nil =>
    intro r c b b' h ht
    simp only [scanFen, Option.some.injEq] at h
    subst h; exact ht
  | cons ch rest ih =>
    intro r c b b' h ht
    simp only [scanFen] at h
    by_cases h1 : ch = '/'
    · rw [if_pos h1] at h; exact ih _ _ _ _ h ht
    · rw [if_neg h1] at h
      by_cases h2 : ch.isDigit
      · rw [if_pos h2] at h; exact ih _ _ _ _ h ht
      · rw [if_neg h2] at h
        cases hp : Board.place_piece b (charPiece ch) r c with
        | none => rw [hp] at h; cases h
        | some b1 =>
          rw [hp] at h
          refine ih _ _ _ _ h ?_
          unfold Board.place_piece at hp
          by_cases hr : r < 0 ∨ 7 < r ∨ c < 0 ∨ 7 < c
          · rw [if_pos hr] at hp; cases hp
          · rw [if_neg hr] at hp
            simp only [Option.some.injEq] at hp
            subst hp
            intro i j hij
            by_cases hcell : i = idx r ∧ j = idx c
            · simp only [setCellG, if_pos hcell] at hij ⊢
              exact charPiece_tidy ch hij
            · simp only [setCellG, if_neg hcell] at hij ⊢
              exact ht i j hij

/-- str::split(' ') splits a space-free prefix off whole. -/
theorem splitSp_append (l : List Char) (rest : List Char) (h : ∀ ch ∈ l, ch ≠ ' ') :
    splitSp (l ++ ' ' :: rest) = l :: splitSp rest := by
  induction l with
  | nil => simp [splitSp]
  | cons c t ih =>
    have hc : c ≠ ' ' := h c (List.mem_cons_self c t)
    have ht : ∀ ch ∈ t, ch ≠ ' ' := fun ch hch => h ch (List.mem_cons_of_mem c hch)
    simp only [List.cons_append, splitSp, if_neg hc, List.append_eq, ih ht]

theorem splitSp_noSpace (l : List Char) (h : ∀ ch ∈ l, ch ≠ ' ') :
    splitSp l = [l] := by
  induction l with
  | nil => rfl
  | cons c t ih =>
    have hc : c ≠ ' ' := h c (List.mem_cons_self c t)
    have ht : ∀ ch ∈ t, ch ≠ ' ' := fun ch hch => h ch (List.mem_cons_of_mem c hch)
    simp only [splitSp, if_neg hc, ih ht]

theorem pieceChar_ne_space (p : Piece) : pieceChar p ≠ ' ' := by
  obtain ⟨br, co⟩ := p
  cases br <;> cases co <;> decide

theorem digits_no_space (k : Nat) (h8 : k ≤ 8) : ∀ ch ∈ (toString k).data, ch ≠ ' ' := by
  interval_cases k <;> decide

theorem encodeRankAux_no_space (l : List Piece) : ∀ (k : Nat), k + l.length ≤ 8 →
    ∀ ch ∈ encodeRankAux l k, ch ≠ ' ' := by
  induction l with
  | nil =>
    intro k hk ch hch
    simp only [encodeRankAux] at hch
    by_cases h0 : 0 < k
    · rw [if_pos h0] at hch
      exact digits_no_space k (by omega) ch hch
    · rw [if_neg h0] at hch
      cases hch
  | cons p t ih =>
    intro k hk ch hch
    simp only [encodeRankAux] at hch
    by_cases hp : p.breed = Pieces.Empty
    · rw [if_pos hp] at hch
      exact ih (k + 1) (by simp at hk; omega) ch hch
    · rw [if_neg hp] at hch
      rcases List.mem_append.mp hch with hd | hpc
      · by_cases h0 : 0 < k
        · rw [if_pos h0] at hd
          exact digits_no_space k (by simp at hk; omega) ch hd
        · rw [if_neg h0] at hd
          cases hd
      · rcases List.mem_cons.mp hpc with he | ht
        · rw [he]; exact pieceChar_ne_space p
        · exact ih 0 (by simp at hk; omega) ch ht

theorem encRank_no_space (g : Grid) (i : Fin 8) : ∀ ch ∈ encRank g i, ch ≠ ' ' := by
  intro ch hch
  exact encodeRankAux_no_space (rankOf g i) 0 (by simp [rankOf]) ch hch

theorem boardFieldChars_no_space (g : Grid) : ∀ ch ∈ boardFieldChars g, ch ≠ ' ' := by
  intro ch hch
  unfold boardFieldChars at hch
  rcases List.mem_append.mp hch with h | hch
  · exact encRank_no_space g 0 ch h
  rcases List.mem_cons.mp hch with h | hch
  · subst h; decide
  rcases List.mem_append.mp hch with h | hch
  · exact encRank_no_space g 1 ch h
  rcases List.mem_cons.mp hch with h | hch
  · subst h; decide
  rcases List.mem_append.mp hch with h | hch
  · exact encRank_no_space g 2 ch h
  rcases List.mem_cons.mp hch with h | hch
  · subst h; decide
  rcases List.mem_append.mp hch with h | hch
  · exact encRank_no_space g 3 ch h
  rcases List.mem_cons.mp hch with h | hch
  · subst h; decide
  rcases List.mem_append.mp hch with h | hch
  · exact encRank_no_space g 4 ch h
  rcases List.mem_cons.mp hch with h | hch
  · subst h; decide
  rcases List.mem_append.mp hch with h | hch
  · exact encRank_no_space g 5 ch h
  rcases List.mem_cons.mp hch with h | hch
  · subst h; decide
  rcases List.mem_append.mp hch with h | hch
  · exact encRank_no_space g 6 ch h
  rcases List.mem_cons.mp hch with h | hch
  · subst h; decide
  exact encRank_no_space g 7 ch hch

theorem charPiece_pieceChar (p : Piece) (h : p.breed ≠ Pieces.Empty) :
    charPiece (pieceChar p) = p ∧ pieceChar p ≠ '/' ∧ (pieceChar p).isDigit = false := by
  obtain ⟨br, co⟩ := p
  cases br <;> cases co <;>
    first
      | exact ⟨by decide, by decide, by decide⟩
      | exact absurd rfl h

/-- Scanning the decimal digits of k (1 <= k <= 8) advances the column by k. -/
theorem scanFen_digits (k : Nat) (h1 : 1 ≤ k) (h8 : k ≤ 8) (rest : List Char)
    (r c : Int) (b : Board) :
    scanFen ((toString k).data ++ rest) r c b = scanFen rest r (c + k) b := by
  interval_cases k <;> rfl

/-- Scanning one piece letter places the piece and advances one column. -/
theorem scanFen_letter (p : Piece) (hp : p.breed ≠ Pieces.Empty) (rest : List Char)
    (r c : Int) (b : Board) (h0r : 0 ≤ r) (h7r : r ≤ 7) (h0c : 0 ≤ c) (h7c : c ≤ 7) :
    scanFen (pieceChar p :: rest) r c b =
      scanFen rest r (c + 1) ((b.place_piece p r c).getD b) := by
  obtain ⟨hcp, hsl, hdg⟩ := charPiece_pieceChar p hp
  simp only [scanFen, if_neg hsl, if_neg (by simp [hdg] : ¬(pieceChar p).isDigit = true)]
  rw [hcp]
  cases hpp : b.place_piece p r c with
  | none =>
    exfalso
    unfold Board.place_piece at hpp
    rw [if_neg (by omega)] at hpp
    exact Option.noConfusion hpp
  | some b1 => rfl

/-- The run-length encoding of one rank scans back to placing that rank. -/
theorem scanRank (l : List Piece) : ∀ (k : Nat) (r c : Int) (b : Board) (rest : List Char),
    0 ≤ r → r ≤ 7 → 0 ≤ c → c + k + l.length ≤ 8 →
    scanFen (encodeRankAux l k ++ rest) r c b =
      scanFen rest r (c + k + l.length) (placeRankFrom r (c + k) l b) := by
  induction l with
  | nil =>
    intro k r c b rest h0r h7r h0c hlen
    simp only [encodeRankAux, List.length_nil, placeRankFrom, Nat.cast_zero, add_zero]
    rcases Nat.eq_zero_or_pos k with hk | hk
    · subst hk
      simp
    · rw [if_pos hk, scanFen_digits k hk (by omega)]
  | cons p t ih =>
    intro k r c b rest h0r h7r h0c hlen
    simp only [List.length_cons] at hlen ⊢
    by_cases hp : p.breed = Pieces.Empty
    · simp only [encodeRankAux, if_pos hp, placeRankFrom]
      have H := ih (k + 1) r c b rest h0r h7r h0c (by push_cast at hlen ⊢; omega)
      rw [H]
      have e1 : c + ((k : Int) + 1) + (t.length : Int) = c + k + ((t.length : Int) + 1) := by
        ring
      have e2 : c + ((k : Int) + 1) = c + k + 1 := by ring
      push_cast
      rw [e1, e2]
    · simp only [encodeRankAux, if_neg hp]
      rcases Nat.eq_zero_or_pos k with hk | hk
      · subst hk
        rw [if_neg (lt_irrefl 0)]
        simp only [List.nil_append, Nat.cast_zero, add_zero, List.cons_append]
        rw [scanFen_letter p hp _ r c b h0r h7r h0c (by push_cast at hlen; omega)]
        have H := ih 0 r (c + 1) ((b.place_piece p r c).getD b) rest h0r h7r
          (by omega) (by push_cast at hlen ⊢; omega)
        simp only [Nat.cast_zero, add_zero] at H
        rw [H]
        simp only [placeRankFrom, if_neg hp]
        push_cast
        have e1 : c + 1 + (t.length : Int) = c + ((t.length : Int) + 1) := by ring
        rw [e1]
      · rw [if_pos hk]
        rw [List.append_assoc, List.cons_append,
          scanFen_digits k hk (by push_cast at hlen; omega),
          scanFen_letter p hp _ r (c + k) b h0r h7r (by omega)
            (by push_cast at hlen; omega)]
        have H := ih 0 r (c + k + 1) (((b.place_piece p r (c + k)).getD b)) rest h0r h7r
          (by omega) (by push_cast at hlen ⊢; omega)
        simp only [Nat.cast_zero, add_zero] at H
        rw [H]
        simp only [placeRankFrom, if_neg hp]
        push_cast
        have e1 : c + (k : Int) + 1 + (t.length : Int) = c + k + ((t.length : Int) + 1) := by
          ring
        rw [e1]

/-- Placing a rank at row r does not touch other rows. -/
theorem placeRankFrom_board_other (r : Int) (hr0 : 0 ≤ r) (hr7 : r ≤ 7)
    (l : List Piece) : ∀ (c : Int) (b : Board) (i j : Fin 8), (i : Int) ≠ r →
      (placeRankFrom r c l b).board i j = b.board i j := by
  induction l with
  | nil => intro c b i j _; rfl
  | cons p t ih =>
    intro c b i j hi
    by_cases hp : p.breed = Pieces.Empty
    · simp only [placeRankFrom, if_pos hp]
      exact ih (c + 1) b i j hi
    · simp only [placeRankFrom, if_neg hp]
      rw [ih (c + 1) _ i j hi]
      cases hpp : b.place_piece p r c with
      | none => rw [Option.getD_none]
      | some b1 =>
        rw [Option.getD_some]
        unfold Board.place_piece at hpp
        by_cases hr : r < 0 ∨ 7 < r ∨ c < 0 ∨ 7 < c
        · rw [if_pos hr] at hpp; cases hpp
        · rw [if_neg hr] at hpp
          simp only [Option.some.injEq] at hpp
          subst hpp
          refine setCellG_ne _ _ _ _ ?_
          rintro ⟨hir, -⟩
          exact hi (by rw [hir]; exact coe_idx hr0 (by omega))

/-- The effect of placing a rank at row r on row r itself. -/
theorem placeRankFrom_board_at (r : Int) (hr0 : 0 ≤ r) (hr7 : r ≤ 7) (l : List Piece) :
    ∀ (c : Int) (b : Board) (i j : Fin 8), (i : Int) = r → 0 ≤ c → c + l.length ≤ 8 →
      (placeRankFrom r c l b).board i j =
        (if c ≤ (j : Int) ∧ (j : Int) < c + l.length then
          (if (l.getD ((j : Int) - c).toNat emptyPiece).breed = Pieces.Empty then
            b.board i j
          else l.getD ((j : Int) - c).toNat emptyPiece)
         else b.board i j) := by
  induction l with
  | nil =>
    intro c b i j hi h0c hlen
    simp only [placeRankFrom, List.length_nil, Nat.cast_zero, add_zero]
    rw [if_neg (show ¬(c ≤ (j : Int) ∧ (j : Int) < c) from by omega)]
  | cons p t ih =>
    intro c b i j hi h0c hlen
    simp only [List.length_cons] at hlen ⊢
    have hj8 : (j : Int) < 8 := by omega
    have hj0 : 0 ≤ (j : Int) := by positivity
    have hcast : ((t.length + 1 : Nat) : Int) = (t.length : Int) + 1 := by push_cast; ring
    rw [hcast] at hlen
    by_cases hp : p.breed = Pieces.Empty
    · simp only [placeRankFrom, if_pos hp]
      rw [ih (c + 1) b i j hi (by omega) (by omega)]
      rcases lt_trichotomy ((j : Int)) c with hjc | hjc | hjc
      · rw [if_neg (show ¬(c + 1 ≤ (j : Int) ∧ (j : Int) < c + 1 + (t.length : Int))
            from by omega),
          if_neg (show ¬(c ≤ (j : Int) ∧ (j : Int) < c + ((t.length + 1 : Nat) : Int))
            from by rw [hcast]; omega)]
      · rw [if_neg (show ¬(c + 1 ≤ (j : Int) ∧ (j : Int) < c + 1 + (t.length : Int))
            from by omega),
          if_pos (show c ≤ (j : Int) ∧ (j : Int) < c + ((t.length + 1 : Nat) : Int)
            from by rw [hcast]; omega)]
        have h0 : ((j : Int) - c).toNat = 0 := by omega
        rw [h0, List.getD_cons_zero, if_pos hp]
      · have hd : ((j : Int) - c).toNat = ((j : Int) - (c + 1)).toNat + 1 := by omega
        by_cases hin : (j : Int) < c + 1 + (t.length : Int)
        · rw [if_pos (show c + 1 ≤ (j : Int) ∧ (j : Int) < c + 1 + (t.length : Int)
              from by omega),
            if_pos (show c ≤ (j : Int) ∧ (j : Int) < c + ((t.length + 1 : Nat) : Int)
              from by rw [hcast]; omega)]
          rw [hd, List.getD_cons_succ]
        · rw [if_neg (show ¬(c + 1 ≤ (j : Int) ∧ (j : Int) < c + 1 + (t.length : Int))
              from by omega),
            if_neg (show ¬(c ≤ (j : Int) ∧ (j : Int) < c + ((t.length + 1 : Nat) : Int))
              from by rw [hcast]; omega)]
    · simp only [placeRankFrom, if_neg hp]
      have hc7 : c ≤ 7 := by omega
      cases hpp : b.place_piece p r c with
      | none =>
        exfalso
        unfold Board.place_piece at hpp
        rw [if_neg (by omega)] at hpp
        exact Option.noConfusion hpp
      | some b1 =>
        rw [Option.getD_some]
        have hb1 : b1.board = setCellG b.board r c p := by
          unfold Board.place_piece at hpp
          rw [if_neg (by omega)] at hpp
          simp only [Option.some.injEq] at hpp
          subst hpp
          rfl
        rw [ih (c + 1) b1 i j hi (by omega) (by omega), hb1]
        rcases lt_trichotomy ((j : Int)) c with hjc | hjc | hjc
        · rw [if_neg (show ¬(c + 1 ≤ (j : Int) ∧ (j : Int) < c + 1 + (t.length : Int))
              from by omega),
            if_neg (show ¬(c ≤ (j : Int) ∧ (j : Int) < c + ((t.length + 1 : Nat) : Int))
              from by rw [hcast]; omega)]
          exact setCellG_ne _ _ _ _ (by
            rintro ⟨-, hjc2⟩
            rw [hjc2, coe_idx (by omega) (by omega)] at hjc
            exact lt_irrefl c hjc)
        · rw [if_neg (show ¬(c + 1 ≤ (j : Int) ∧ (j : Int) < c + 1 + (t.length : Int))
              from by omega),
            if_pos (show c ≤ (j : Int) ∧ (j : Int) < c + ((t.length + 1 : Nat) : Int)
              from by rw [hcast]; omega)]
          have h0 : ((j : Int) - c).toNat = 0 := by omega
          rw [h0, List.getD_cons_zero, if_neg hp]
          have hij1 : i = idx r := Fin.ext (by
            have := coe_idx hr0 (by omega : r < 8)
            omega)
          have hij2 : j = idx c := Fin.ext (by
            have := coe_idx h0c (by omega : c < 8)
            omega)
          rw [hij1, hij2]
          exact setCellG_same _ _ _ _
        · have hd : ((j : Int) - c).toNat = ((j : Int) - (c + 1)).toNat + 1 := by omega
          have hne : ¬(i = idx r ∧ j = idx c) := by
            rintro ⟨-, hj⟩
            rw [hj, coe_idx h0c (by omega : c < 8)] at hjc
            exact lt_irrefl c hjc
          by_cases hin : (j : Int) < c + 1 + (t.length : Int)
          · rw [if_pos (show c + 1 ≤ (j : Int) ∧ (j : Int) < c + 1 + (t.length : Int)
                from by omega),
              if_pos (show c ≤ (j : Int) ∧ (j : Int) < c + ((t.length + 1 : Nat) : Int)
                from by rw [hcast]; omega)]
            rw [hd, List.getD_cons_succ]
            by_cases hemp : (t.getD ((j : Int) - (c + 1)).toNat emptyPiece).breed =
                Pieces.Empty
            · rw [if_pos hemp, if_pos hemp]
              exact setCellG_ne _ _ _ _ hne
            · rw [if_neg hemp, if_neg hemp]
          · rw [if_neg (show ¬(c + 1 ≤ (j : Int) ∧ (j : Int) < c + 1 + (t.length : Int))
                from by omega),
              if_neg (show ¬(c ≤ (j : Int) ∧ (j : Int) < c + ((t.length + 1 : Nat) : Int))
                from by rw [hcast]; omega)]
            exact setCellG_ne _ _ _ _ hne

theorem rankOf_length (g : Grid) (i : Fin 8) : (rankOf g i).length = 8 := by
  simp [rankOf]

theorem rankOf_getD (g : Grid) (i j : Fin 8) :
    (rankOf g i).getD j.val emptyPiece = g i j := by
  fin_cases j <;> rfl

/-- Placing all eight ranks of a tidy grid onto an all-Empty board rebuilds
exactly that grid. -/
theorem placeAll_board (g : Grid) (b : Board)
    (hbase : ∀ i j : Fin 8, b.board i j = emptyPiece) (htidy : TidyGrid g) :
    (placeAll g b).board = g := by
  funext i j
  have hsub : ((j : Int) - 0).toNat = j.val := by omega
  unfold placeAll
  fin_cases i
  · beta_reduce
    rw [placeRankFrom_board_other 7 (by norm_num) (by norm_num) _ 0 _ (⟨0, by norm_num⟩ : Fin 8) j (by decide)]
    rw [placeRankFrom_board_other 6 (by norm_num) (by norm_num) _ 0 _ (⟨0, by norm_num⟩ : Fin 8) j (by decide)]
    rw [placeRankFrom_board_other 5 (by norm_num) (by norm_num) _ 0 _ (⟨0, by norm_num⟩ : Fin 8) j (by decide)]
    rw [placeRankFrom_board_other 4 (by norm_num) (by norm_num) _ 0 _ (⟨0, by norm_num⟩ : Fin 8) j (by decide)]
    rw [placeRankFrom_board_other 3 (by norm_num) (by norm_num) _ 0 _ (⟨0, by norm_num⟩ : Fin 8) j (by decide)]
    rw [placeRankFrom_board_other 2 (by norm_num) (by norm_num) _ 0 _ (⟨0, by norm_num⟩ : Fin 8) j (by decide)]
    rw [placeRankFrom_board_other 1 (by norm_num) (by norm_num) _ 0 _ (⟨0, by norm_num⟩ : Fin 8) j (by decide)]
    rw [placeRankFrom_board_at 0 (by norm_num) (by norm_num) (rankOf g 0) 0 _ (⟨0, by norm_num⟩ : Fin 8) j (by decide) (by norm_num) (by rw [rankOf_length]; norm_num)]
    rw [if_pos (show (0 : Int) ≤ (j : Int) ∧ (j : Int) < 0 + ((rankOf g 0).length : Int) from by rw [rankOf_length]; constructor <;> omega)]
    rw [hsub, rankOf_getD]
    by_cases hemp : (g 0 j).breed = Pieces.Empty
    · rw [if_pos hemp]
      rw [hbase (⟨0, by norm_num⟩ : Fin 8) j]
      exact (htidy 0 j hemp).symm
    · rw [if_neg hemp]
      exact rfl
  · beta_reduce
    rw [placeRankFrom_board_other 7 (by norm_num) (by norm_num) _ 0 _ (⟨1, by norm_num⟩ : Fin 8) j (by decide)]
    rw [placeRankFrom_board_other 6 (by norm_num) (by norm_num) _ 0 _ (⟨1, by norm_num⟩ : Fin 8) j (by decide)]
    rw [placeRankFrom_board_other 5 (by norm_num) (by norm_num) _ 0 _ (⟨1, by norm_num⟩ : Fin 8) j (by decide)]
    rw [placeRankFrom_board_other 4 (by norm_num) (by norm_num) _ 0 _ (⟨1, by norm_num⟩ : Fin 8) j (by decide)]
    rw [placeRankFrom_board_other 3 (by norm_num) (by norm_num) _ 0 _ (⟨1, by norm_num⟩ : Fin 8) j (by decide)]
    rw [placeRankFrom_board_other 2 (by norm_num) (by norm_num) _ 0 _ (⟨1, by norm_num⟩ : Fin 8) j (by decide)]
    rw [placeRankFrom_board_at 1 (by norm_num) (by norm_num) (rankOf g 1) 0 _ (⟨1, by norm_num⟩ : Fin 8) j (by decide) (by norm_num) (by rw [rankOf_length]; norm_num)]
    rw [if_pos (show (0 : Int) ≤ (j : Int) ∧ (j : Int) < 0 + ((rankOf g 1).length : Int) from by rw [rankOf_length]; constructor <;> omega)]
    rw [hsub, rankOf_getD]
    by_cases hemp : (g 1 j).breed = Pieces.Empty
    · rw [if_pos hemp]
      rw [placeRankFrom_board_other 0 (by norm_num) (by norm_num) _ 0 _ (⟨1, by norm_num⟩ : Fin 8) j (by decide)]
      rw [hbase (⟨1, by norm_num⟩ : Fin 8) j]
      exact (htidy 1 j hemp).symm
    · rw [if_neg hemp]
      exact rfl
  · beta_reduce
    rw [placeRankFrom_board_other 7 (by norm_num) (by norm_num) _ 0 _ (⟨2, by norm_num⟩ : Fin 8) j (by decide)]
    rw [placeRankFrom_board_other 6 (by norm_num) (by norm_num) _ 0 _ (⟨2, by norm_num⟩ : Fin 8) j (by decide)]
    rw [placeRankFrom_board_other 5 (by norm_num) (by norm_num) _ 0 _ (⟨2, by norm_num⟩ : Fin 8) j (by decide)]
    rw [placeRankFrom_board_other 4 (by norm_num) (by norm_num) _ 0 _ (⟨2, by norm_num⟩ : Fin 8) j (by decide)]
    rw [placeRankFrom_board_other 3 (by norm_num) (by norm_num) _ 0 _ (⟨2, by norm_num⟩ : Fin 8) j (by decide)]
    rw [placeRankFrom_board_at 2 (by norm_num) (by norm_num) (rankOf g 2) 0 _ (⟨2, by norm_num⟩ : Fin 8) j (by decide) (by norm_num) (by rw [rankOf_length]; norm_num)]
    rw [if_pos (show (0 : Int) ≤ (j : Int) ∧ (j : Int) < 0 + ((rankOf g 2).length : Int) from by rw [rankOf_length]; constructor <;> omega)]
    rw [hsub, rankOf_getD]
    by_cases hemp : (g 2 j).breed = Pieces.Empty
    · rw [if_pos hemp]
      rw [placeRankFrom_board_other 1 (by norm_num) (by norm_num) _ 0 _ (⟨2, by norm_num⟩ : Fin 8) j (by decide)]
      rw [placeRankFrom_board_other 0 (by norm_num) (by norm_num) _ 0 _ (⟨2, by norm_num⟩ : Fin 8) j (by decide)]
      rw [hbase (⟨2, by norm_num⟩ : Fin 8) j]
      exact (htidy 2 j hemp).symm
    · rw [if_neg hemp]
      exact rfl
  · beta_reduce
    rw [placeRankFrom_board_other 7 (by norm_num) (by norm_num) _ 0 _ (⟨3, by norm_num⟩ : Fin 8) j (by decide)]
    rw [placeRankFrom_board_other 6 (by norm_num) (by norm_num) _ 0 _ (⟨3, by norm_num⟩ : Fin 8) j (by decide)]
    rw [placeRankFrom_board_other 5 (by norm_num) (by norm_num) _ 0 _ (⟨3, by norm_num⟩ : Fin 8) j (by decide)]
    rw [placeRankFrom_board_other 4 (by norm_num) (by norm_num) _ 0 _ (⟨3, by norm_num⟩ : Fin 8) j (by decide)]
    rw [placeRankFrom_board_at 3 (by norm_num) (by norm_num) (rankOf g 3) 0 _ (⟨3, by norm_num⟩ : Fin 8) j (by decide) (by norm_num) (by rw [rankOf_length]; norm_num)]
    rw [if_pos (show (0 : Int) ≤ (j : Int) ∧ (j : Int) < 0 + ((rankOf g 3).length : Int) from by rw [rankOf_length]; constructor <;> omega)]
    rw [hsub, rankOf_getD]
    by_cases hemp : (g 3 j).breed = Pieces.Empty
    · rw [if_pos hemp]
      rw [placeRankFrom_board_other 2 (by norm_num) (by norm_num) _ 0 _ (⟨3, by norm_num⟩ : Fin 8) j (by decide)]
      rw [placeRankFrom_board_other 1 (by norm_num) (by norm_num) _ 0 _ (⟨3, by norm_num⟩ : Fin 8) j (by decide)]
      rw [placeRankFrom_board_other 0 (by norm_num) (by norm_num) _ 0 _ (⟨3, by norm_num⟩ : Fin 8) j (by decide)]
      rw [hbase (⟨3, by norm_num⟩ : Fin 8) j]
      exact (htidy 3 j hemp).symm
    · rw [if_neg hemp]
      exact rfl
  · beta_reduce
    rw [placeRankFrom_board_other 7 (by norm_num) (by norm_num) _ 0 _ (⟨4, by norm_num⟩ : Fin 8) j (by decide)]
    rw [placeRankFrom_board_other 6 (by norm_num) (by norm_num) _ 0 _ (⟨4, by norm_num⟩ : Fin 8) j (by decide)]
    rw [placeRankFrom_board_other 5 (by norm_num) (by norm_num) _ 0 _ (⟨4, by norm_num⟩ : Fin 8) j (by decide)]
    rw [placeRankFrom_board_at 4 (by norm_num) (by norm_num) (rankOf g 4) 0 _ (⟨4, by norm_num⟩ : Fin 8) j (by decide) (by norm_num) (by rw [rankOf_length]; norm_num)]
    rw [if_pos (show (0 : Int) ≤ (j : Int) ∧ (j : Int) < 0 + ((rankOf g 4).length : Int) from by rw [rankOf_length]; constructor <;> omega)]
    rw [hsub, rankOf_getD]
    by_cases hemp : (g 4 j).breed = Pieces.Empty
    · rw [if_pos hemp]
      rw [placeRankFrom_board_other 3 (by norm_num) (by norm_num) _ 0 _ (⟨4, by norm_num⟩ : Fin 8) j (by decide)]
      rw [placeRankFrom_board_other 2 (by norm_num) (by norm_num) _ 0 _ (⟨4, by norm_num⟩ : Fin 8) j (by decide)]
      rw [placeRankFrom_board_other 1 (by norm_num) (by norm_num) _ 0 _ (⟨4, by norm_num⟩ : Fin 8) j (by decide)]
      rw [placeRankFrom_board_other 0 (by norm_num) (by norm_num) _ 0 _ (⟨4, by norm_num⟩ : Fin 8) j (by decide)]
      rw [hbase (⟨4, by norm_num⟩ : Fin 8) j]
      exact (htidy 4 j hemp).symm
    · rw [if_neg hemp]
      exact rfl
  · beta_reduce
    rw [placeRankFrom_board_other 7 (by norm_num) (by norm_num) _ 0 _ (⟨5, by norm_num⟩ : Fin 8) j (by decide)]
    rw [placeRankFrom_board_other 6 (by norm_num) (by norm_num) _ 0 _ (⟨5, by norm_num⟩ : Fin 8) j (by decide)]
    rw [placeRankFrom_board_at 5 (by norm_num) (by norm_num) (rankOf g 5) 0 _ (⟨5, by norm_num⟩ : Fin 8) j (by decide) (by norm_num) (by rw [rankOf_length]; norm_num)]
    rw [if_pos (show (0 : Int) ≤ (j : Int) ∧ (j : Int) < 0 + ((rankOf g 5).length : Int) from by rw [rankOf_length]; constructor <;> omega)]
    rw [hsub, rankOf_getD]
    by_cases hemp : (g 5 j).breed = Pieces.Empty
    · rw [if_pos hemp]
      rw [placeRankFrom_board_other 4 (by norm_num) (by norm_num) _ 0 _ (⟨5, by norm_num⟩ : Fin 8) j (by decide)]
      rw [placeRankFrom_board_other 3 (by norm_num) (by norm_num) _ 0 _ (⟨5, by norm_num⟩ : Fin 8) j (by decide)]
      rw [placeRankFrom_board_other 2 (by norm_num) (by norm_num) _ 0 _ (⟨5, by norm_num⟩ : Fin 8) j (by decide)]
      rw [placeRankFrom_board_other 1 (by norm_num) (by norm_num) _ 0 _ (⟨5, by norm_num⟩ : Fin 8) j (by decide)]
      rw [placeRankFrom_board_other 0 (by norm_num) (by norm_num) _ 0 _ (⟨5, by norm_num⟩ : Fin 8) j (by decide)]
      rw [hbase (⟨5, by norm_num⟩ : Fin 8) j]
      exact (htidy 5 j hemp).symm
    · rw [if_neg hemp]
      exact rfl
  · beta_reduce
    rw [placeRankFrom_board_other 7 (by norm_num) (by norm_num) _ 0 _ (⟨6, by norm_num⟩ : Fin 8) j (by decide)]
    rw [placeRankFrom_board_at 6 (by norm_num) (by norm_num) (rankOf g 6) 0 _ (⟨6, by norm_num⟩ : Fin 8) j (by decide) (by norm_num) (by rw [rankOf_length]; norm_num)]
    rw [if_pos (show (0 : Int) ≤ (j : Int) ∧ (j : Int) < 0 + ((rankOf g 6).length : Int) from by rw [rankOf_length]; constructor <;> omega)]
    rw [hsub, rankOf_getD]
    by_cases hemp : (g 6 j).breed = Pieces.Empty
    · rw [if_pos hemp]
      rw [placeRankFrom_board_other 5 (by norm_num) (by norm_num) _ 0 _ (⟨6, by norm_num⟩ : Fin 8) j (by decide)]
      rw [placeRankFrom_board_other 4 (by norm_num) (by norm_num) _ 0 _ (⟨6, by norm_num⟩ : Fin 8) j (by decide)]
      rw [placeRankFrom_board_other 3 (by norm_num) (by norm_num) _ 0 _ (⟨6, by norm_num⟩ : Fin 8) j (by decide)]
      rw [placeRankFrom_board_other 2 (by norm_num) (by norm_num) _ 0 _ (⟨6, by norm_num⟩ : Fin 8) j (by decide)]
      rw [placeRankFrom_board_other 1 (by norm_num) (by norm_num) _ 0 _ (⟨6, by norm_num⟩ : Fin 8) j (by decide)]
      rw [placeRankFrom_board_other 0 (by norm_num) (by norm_num) _ 0 _ (⟨6, by norm_num⟩ : Fin 8) j (by decide)]
      rw [hbase (⟨6, by norm_num⟩ : Fin 8) j]
      exact (htidy 6 j hemp).symm
    · rw [if_neg hemp]
      exact rfl
  · beta_reduce
    rw [placeRankFrom_board_at 7 (by norm_num) (by norm_num) (rankOf g 7) 0 _ (⟨7, by norm_num⟩ : Fin 8) j (by decide) (by norm_num) (by rw [rankOf_length]; norm_num)]
    rw [if_pos (show (0 : Int) ≤ (j : Int) ∧ (j : Int) < 0 + ((rankOf g 7).length : Int) from by rw [rankOf_length]; constructor <;> omega)]
    rw [hsub, rankOf_getD]
    by_cases hemp : (g 7 j).breed = Pieces.Empty
    · rw [if_pos hemp]
      rw [placeRankFrom_board_other 6 (by norm_num) (by norm_num) _ 0 _ (⟨7, by norm_num⟩ : Fin 8) j (by decide)]
      rw [placeRankFrom_board_other 5 (by norm_num) (by norm_num) _ 0 _ (⟨7, by norm_num⟩ : Fin 8) j (by decide)]
      rw [placeRankFrom_board_other 4 (by norm_num) (by norm_num) _ 0 _ (⟨7, by norm_num⟩ : Fin 8) j (by decide)]
      rw [placeRankFrom_board_other 3 (by norm_num) (by norm_num) _ 0 _ (⟨7, by norm_num⟩ : Fin 8) j (by decide)]
      rw [placeRankFrom_board_other 2 (by norm_num) (by norm_num) _ 0 _ (⟨7, by norm_num⟩ : Fin 8) j (by decide)]
      rw [placeRankFrom_board_other 1 (by norm_num) (by norm_num) _ 0 _ (⟨7, by norm_num⟩ : Fin 8) j (by decide)]
      rw [placeRankFrom_board_other 0 (by norm_num) (by norm_num) _ 0 _ (⟨7, by norm_num⟩ : Fin 8) j (by decide)]
      rw [hbase (⟨7, by norm_num⟩ : Fin 8) j]
      exact (htidy 7 j hemp).symm
    · rw [if_neg hemp]
      exact rfl

/-- A rank separator advances the scan to the next rank's first file. -/
theorem scanFen_slash (rest : List Char) (r c : Int) (b : Board) :
    scanFen ('/' :: rest) r c b = scanFen rest (r + 1) 0 b := by
  simp [scanFen]

/-- Scanning a grid's full board-field encoding from the top-left corner
succeeds and places all eight ranks. -/
theorem scanFen_encode (g : Grid) (b : Board) :
    scanFen (boardFieldChars g) 0 0 b = some (placeAll g b) := by
  unfold boardFieldChars encRank
  rw [scanRank (rankOf g 0) 0 0 0 _ _ (by norm_num) (by norm_num) (by norm_num) (by rw [rankOf_length]; norm_num)]
  rw [rankOf_length]
  norm_num
  rw [scanFen_slash]
  norm_num
  rw [scanRank (rankOf g 1) 0 1 0 _ _ (by norm_num) (by norm_num) (by norm_num) (by rw [rankOf_length]; norm_num)]
  rw [rankOf_length]
  norm_num
  rw [scanFen_slash]
  norm_num
  rw [scanRank (rankOf g 2) 0 2 0 _ _ (by norm_num) (by norm_num) (by norm_num) (by rw [rankOf_length]; norm_num)]
  rw [rankOf_length]
  norm_num
  rw [scanFen_slash]
  norm_num
  rw [scanRank (rankOf g 3) 0 3 0 _ _ (by norm_num) (by norm_num) (by norm_num) (by rw [rankOf_length]; norm_num)]
  rw [rankOf_length]
  norm_num
  rw [scanFen_slash]
  norm_num
  rw [scanRank (rankOf g 4) 0 4 0 _ _ (by norm_num) (by norm_num) (by norm_num) (by rw [rankOf_length]; norm_num)]
  rw [rankOf_length]
  norm_num
  rw [scanFen_slash]
  norm_num
  rw [scanRank (rankOf g 5) 0 5 0 _ _ (by norm_num) (by norm_num) (by norm_num) (by rw [rankOf_length]; norm_num)]
  rw [rankOf_length]
  norm_num
  rw [scanFen_slash]
  norm_num
  rw [scanRank (rankOf g 6) 0 6 0 _ _ (by norm_num) (by norm_num) (by norm_num) (by rw [rankOf_length]; norm_num)]
  rw [rankOf_length]
  norm_num
  rw [scanFen_slash]
  norm_num
  rw [← List.append_nil (encodeRankAux (rankOf g 7) 0)]
  rw [scanRank (rankOf g 7) 0 7 0 _ [] (by norm_num) (by norm_num) (by norm_num) (by rw [rankOf_length]; norm_num)]
  simp only [scanFen, Option.some.injEq]
  unfold placeAll
  norm_num

/-- With all castling flags false, no en-passant marker and clocks 0/1 (the
state every load_fen output carries), get_fen's character list is the board
field, the turn letter and the literal tail "  - 0 1". -/
theorem getFenChars_shape (b : Board)
    (hc1 : b.castling_white_king_side = false)
    (hc2 : b.castling_white_queen_side = false)
    (hc3 : b.castling_black_king_side = false)
    (hc4 : b.castling_black_queen_side = false)
    (hep : b.last_2_moves_pawn = none)
    (hhm : b.halfmove_clock = 0)
    (hfm : b.fullmove_number = 1) :
    getFenChars b = boardFieldChars b.board ++
      (' ' :: ((if b.turn = Color.White then ['w'] else ['b']) ++
        [' ', ' ', '-', ' ', '0', ' ', '1'])) := by
  unfold getFenChars castlingChars
  rw [hc1, hc2, hc3, hc4, hep, hhm, hfm]
  rfl

/-- load_fen on a text whose second field is the letter w scans the first
field onto the cleared board with White to move. -/
theorem load_fen_splitW (b : Board) (fen : String) (f0 f2 f3 f4 f5 : List Char)
    (t : List (List Char))
    (hs : splitSp fen.data = f0 :: ['w'] :: f2 :: f3 :: f4 :: f5 :: t) :
    b.load_fen fen = scanFen f0 0 0 { b.clear with turn := Color.White } := by
  unfold Board.load_fen
  rw [hs]
  rfl

/-- load_fen on a text whose second field is the letter b scans the first
field onto the cleared board with Black to move. -/
theorem load_fen_splitB (b : Board) (fen : String) (f0 f2 f3 f4 f5 : List Char)
    (t : List (List Char))
    (hs : splitSp fen.data = f0 :: ['b'] :: f2 :: f3 :: f4 :: f5 :: t) :
    b.load_fen fen = scanFen f0 0 0 { b.clear with turn := Color.Black } := by
  unfold Board.load_fen
  rw [hs]
  rfl

/-- C7 (amended: restricted to texts load_fen actually accepts): whenever
loading a notation text succeeds with board b1, re-serializing b1 and loading
the result from any board succeeds and reproduces exactly b1's
square-by-square grid — the emitted board field encodes the identical
occupancy layout. -/
theorem c7_board_field_roundtrip (fen : String) (b0 b1 b' : Board)
    (h : b0.load_fen fen = some b1) :
    ∃ b2 : Board, b'.load_fen b1.get_fen = some b2 ∧ b2.board = b1.board := by
  unfold Board.load_fen at h
  cases hsC : splitSp fen.data with
  | nil => rw [hsC] at h; cases h
  | cons f0 rest =>
    rw [hsC] at h
    rcases rest with _ | ⟨f1, _ | ⟨f2, _ | ⟨f3, _ | ⟨f4, _ | ⟨f5, t⟩⟩⟩⟩⟩ <;> try cases h
    by_cases hw : f1 = ['w']
    · simp only [hw, ite_true] at h
      obtain ⟨ht, hc1, hc2, hc3, hc4, hep, hhm, hfm⟩ := scanFen_fields f0 0 0 _ b1 h
      have htidy : TidyGrid b1.board :=
        scanFen_tidy f0 0 0 _ b1 h (fun _ _ _ => rfl)
      have hturn : b1.turn = Color.White := ht.trans rfl
      have hshape := getFenChars_shape b1 (hc1.trans rfl) (hc2.trans rfl) (hc3.trans rfl)
        (hc4.trans rfl) (hep.trans rfl) (hhm.trans rfl) (hfm.trans rfl)
      have hsplit2 : splitSp (Board.get_fen b1).data =
          boardFieldChars b1.board :: ['w'] :: [] :: ['-'] :: ['0'] :: ['1'] :: [] := by
        show splitSp (getFenChars b1) = _
        rw [hshape, if_pos hturn,
          splitSp_append (boardFieldChars b1.board) _ (boardFieldChars_no_space b1.board)]
        rfl
      refine ⟨placeAll b1.board { Board.clear b' with turn := Color.White }, ?_, ?_⟩
      · rw [load_fen_splitW b' b1.get_fen (boardFieldChars b1.board) [] ['-'] ['0'] ['1']
          [] hsplit2]
        exact scanFen_encode b1.board _
      · exact placeAll_board b1.board _ (fun _ _ => rfl) htidy
    · by_cases hb : f1 = ['b']
      · simp only [hb, ite_true,
          show (['b'] : List Char) = ['w'] ↔ False by simp, if_false, ite_false] at h
        obtain ⟨ht, hc1, hc2, hc3, hc4, hep, hhm, hfm⟩ := scanFen_fields f0 0 0 _ b1 h
        have htidy : TidyGrid b1.board :=
          scanFen_tidy f0 0 0 _ b1 h (fun _ _ _ => rfl)
        have hturn : b1.turn = Color.Black := ht.trans rfl
        have hshape := getFenChars_shape b1 (hc1.trans rfl) (hc2.trans rfl) (hc3.trans rfl)
          (hc4.trans rfl) (hep.trans rfl) (hhm.trans rfl) (hfm.trans rfl)
        have hsplit2 : splitSp (Board.get_fen b1).data =
            boardFieldChars b1.board :: ['b'] :: [] :: ['-'] :: ['0'] :: ['1'] :: [] := by
          show splitSp (getFenChars b1) = _
          rw [hshape, if_neg (show ¬b1.turn = Color.White by simp [hturn]),
            splitSp_append (boardFieldChars b1.board) _ (boardFieldChars_no_space b1.board)]
          rfl
        refine ⟨placeAll b1.board { Board.clear b' with turn := Color.Black }, ?_, ?_⟩
        · rw [load_fen_splitB b' b1.get_fen (boardFieldChars b1.board) [] ['-'] ['0'] ['1']
            [] hsplit2]
          exact scanFen_encode b1.board _
        · exact placeAll_board b1.board _ (fun _ _ => rfl) htidy
      · simp only [if_neg hw, if_neg hb] at h
        exact Option.noConfusion h

/-- C7 witness: loading the lone-black-king text succeeds, and reloading its
own serialization reproduces the grid square for square. -/
theorem c7_board_field_roundtrip_witness :
    ∃ b2 : Board, Board.new.load_fen c7Board.get_fen = some b2 ∧
      b2.board = c7Board.board :=
  c7_board_field_roundtrip "k7/8/8/8/8/8/8/8 b - - 0 1" Board.new c7Board Board.new
    (option_board_eq (by decide) rfl rfl rfl rfl rfl rfl rfl rfl rfl rfl rfl)

/-- C7 counterexample: a nine-pawn rank is made of recognized characters and
sits in a six-field text, yet loading it panics (the ninth pawn lands at
column 8, out of place_piece's range), so no board is ever produced to
re-serialize: the round-trip claim fails for this input. -/
theorem c7_counterexample :
    recognizedBoardField "ppppppppp".data = true ∧
    (splitSp "ppppppppp w - - 0 1".data).length = 6 ∧
    Board.new.load_fen "ppppppppp w - - 0 1" = none := by
  refine ⟨by decide, by decide, by decide⟩

end Chyes
